import Mathlib

/-!
# Console task manager (`main.cpp`): sampling engine and layout resolver

A shallow embedding of the parts of `main.cpp` that compute the per-process
CPU percentage (`ProcessSampler::sample`) and the number of table rows
(`resolveMaxRows`), of the table printer (`printTable`), the argument parser
(`parseOptions`) and `formatUptime`, followed by theorems about them.

Conventions of the embedding

* `uint64_t`, `size_t`, `DWORD` values are natural numbers; every operation that
  can leave the 64-bit range is reduced modulo `2 ^ 64` explicitly.
* `double` values are rational numbers.  Every finite double is a rational, and
  every arithmetic operation of the program is the exact rational operation
  followed by `roundDouble`, IEEE-754 binary64 rounding to nearest, ties to
  even.  Overflow to infinity and subnormal results are not modelled: the
  values the sampler computes are `0` or lie between `2 ^ (-64)` and `2 ^ 71`.
* `std::unordered_map<DWORD, uint64_t>` is a partial function `Nat → Option Nat`.
* Answers of the operating system (system times, the process snapshot, the
  per-process queries, the console height) are inputs of the functions.
* The library functions `std::stod` and `std::stoul` are parameters of the
  parser, `none` standing for a thrown exception; the value `std::stod` returns
  is a `DoubleValue`, which also has the infinities and NaN.
* The text of a table line is represented by the row it prints; the header
  lines are modelled as text.
-/

namespace TaskManager

/-! ## Machine integers -/

/-- Addition of two `uint64_t` values. -/
def u64Add (a b : Nat) : Nat := (a + b) % 2 ^ 64

/-- Subtraction of two `uint64_t` values (operands below `2 ^ 64`); wraps when `a < b`. -/
def u64Sub (a b : Nat) : Nat := (a + 2 ^ 64 - b) % 2 ^ 64

/-! ## IEEE-754 binary64 rounding -/

/-- Nearest integer to `n / d`, ties to the even integer. -/
def roundHalfEven (n d : Nat) : Nat :=
  let q := n / d
  let r := n % d
  if 2 * r < d then q
  else if d < 2 * r then q + 1
  else if q % 2 = 0 then q else q + 1

/-- Halves `n` until it is below `2`, at most `fuel` times, counting the steps. -/
def log2Aux : Nat → Nat → Nat
  | 0, _ => 0
  | fuel + 1, n => if 2 ≤ n then log2Aux fuel (n / 2) + 1 else 0

/-- Index of the highest set bit of `n` (`0` for `n = 0`). -/
def bitLog2 (n : Nat) : Nat := log2Aux n n

/-- Binary exponent of the positive fraction `n / d`: the `k` with
`2 ^ k ≤ n / d < 2 ^ (k + 1)`. -/
def floorLog2 (n d : Nat) : Int :=
  let k : Int := (bitLog2 n : Int) - (bitLog2 d : Int)
  if 0 ≤ k then (if d * 2 ^ k.toNat ≤ n then k else k - 1)
  else (if d ≤ n * 2 ^ (-k).toNat then k else k - 1)

/-- The double nearest to the positive fraction `n / d`: the fraction is scaled
by a power of two so that it lies in `[2 ^ 52, 2 ^ 53)`, rounded to an integer
(a 53-bit significand), and scaled back. -/
def roundPos (n d : Nat) : ℚ :=
  let e : Int := floorLog2 n d - 52
  if 0 ≤ e then ((roundHalfEven n (d * 2 ^ e.toNat) * 2 ^ e.toNat : Nat) : ℚ)
  else ((roundHalfEven (n * 2 ^ (-e).toNat) d : Nat) : ℚ) / ((2 ^ (-e).toNat : Nat) : ℚ)

/-- Rounding of an exact result to `double` (round to nearest, ties to even). -/
def roundDouble (x : ℚ) : ℚ :=
  if x.num = 0 then 0
  else if 0 < x.num then roundPos x.num.natAbs x.den
  else -roundPos x.num.natAbs x.den

/-- Conversion `static_cast<double>(n)` of a `uint64_t`. -/
def u64ToDouble (n : Nat) : ℚ := roundDouble (n : ℚ)

/-- Multiplication of two doubles. -/
def fmul (a b : ℚ) : ℚ := roundDouble (a * b)

/-- Division of two doubles (divisor not zero). -/
def fdiv (a b : ℚ) : ℚ := roundDouble (a / b)

/-! ## Data model -/

/-- The Win32 `FILETIME`: two `DWORD` halves. -/
structure FILETIME where
  dwLowDateTime : Nat
  dwHighDateTime : Nat
deriving Repr, DecidableEq

/-- Function `fileTimeToUint64` (lines 57-62): joins the two halves into a 64-bit count. -/
def fileTimeToUint64 (ft : FILETIME) : Nat :=
  (ft.dwHighDateTime % 2 ^ 32) * 2 ^ 32 + ft.dwLowDateTime % 2 ^ 32

/-- What `GetSystemTimes` wrote when it succeeded. -/
structure SystemTimes where
  idle : FILETIME
  kernel : FILETIME
  user : FILETIME
deriving Repr, DecidableEq

/-- Function `readSystemTime` (lines 65-74); the argument is `none` when `GetSystemTimes` fails. -/
def readSystemTime (r : Option SystemTimes) : Nat :=
  match r with
  | none => 0
  | some t =>
    let kernelTime := fileTimeToUint64 t.kernel
    let userTime := fileTimeToUint64 t.user
    let idleTime := fileTimeToUint64 t.idle
    u64Sub (u64Add kernelTime userTime) idleTime

/-- Function `narrow` (lines 77-88): the UTF-8 form of a wide string; the text is the same. -/
def narrow (wstr : String) : String := wstr

/-- The `struct ProcessRow` (lines 124-131). -/
structure ProcessRow where
  pid : Nat := 0
  ppid : Nat := 0
  cpuPercent : ℚ := 0
  workingSetMb : ℚ := 0
  threads : Nat := 0
  name : String := ""
deriving Repr, DecidableEq

/-- Answers of the per-process queries made inside the loop (lines 160-172):
`opened` tells whether `OpenProcess` returned a handle, `times` holds the kernel
and user times when `GetProcessTimes` succeeds, `workingSetSize` the
`WorkingSetSize` when `GetProcessMemoryInfo` succeeds. -/
structure ProcessQuery where
  opened : Bool
  times : Option (FILETIME × FILETIME)
  workingSetSize : Option Nat
deriving Repr, DecidableEq

/-- One `PROCESSENTRY32W` of the snapshot together with the answers of the
queries for that process. -/
structure ProcessEntry where
  th32ProcessID : Nat
  th32ParentProcessID : Nat
  cntThreads : Nat
  szExeFile : String
  query : ProcessQuery
deriving Repr, DecidableEq

/-- Everything one call of `sample` reads from the operating system:
`snapshot` is `none` when `CreateToolhelp32Snapshot` returns
`INVALID_HANDLE_VALUE`, otherwise the entries in enumeration order. -/
structure OsReading where
  systemTimes : Option SystemTimes
  snapshot : Option (List ProcessEntry)

/-- The private state of `class ProcessSampler` (lines 211-214) with its initial values. -/
structure ProcessSampler where
  prevSystemTime_ : Nat := 0
  prevProcTimes_ : Nat → Option Nat := fun _ => none
  lastProcessCount_ : Nat := 0

/-- A `double` as `std::stod` can return it and `Options::intervalSeconds` can
hold it: a finite value, an infinity, or a NaN. -/
inductive DoubleValue where
  | finite (value : ℚ)
  | posInf
  | negInf
  | nan
deriving Repr, DecidableEq

/-- The comparison `out > 0.0`. -/
def DoubleValue.isPositive : DoubleValue → Bool
  | .finite value => decide (value > 0)
  | .posInf => true
  | .negInf => false
  | .nan => false

/-- The `struct Options` (lines 49-54). -/
structure Options where
  topMode : Bool := false
  intervalSeconds : DoubleValue := DoubleValue.finite 1
  killPid : Option Nat := none
  maxProcs : Nat := 0

/-! ## `ProcessSampler::sample` -/

/-- The value of `procTime` after lines 158-166. -/
def procTimeOf (q : ProcessQuery) : Nat :=
  if q.opened then
    match q.times with
    | some (kernel, user) => u64Add (fileTimeToUint64 kernel) (fileTimeToUint64 user)
    | none => 0
  else 0

/-- The value of `workingSet` after lines 159-170 (a 64-bit `SIZE_T`). -/
def workingSetOf (q : ProcessQuery) : Nat :=
  if q.opened then
    match q.workingSetSize with
    | some ws => ws % 2 ^ 64
    | none => 0
  else 0

/-- Result of the CPU computation: the value of `cpu`, and a ghost flag that
records whether one of the two `uint64_t` subtractions was executed with a
minuend smaller than its subtrahend (so that its result wrapped). -/
structure CpuCalc where
  cpu : ℚ
  wrapped : Bool
deriving Repr, DecidableEq

/-- Lines 176-186 of `sample`. -/
def computeCpu (self : ProcessSampler) (systemTime pid procTime : Nat) : CpuCalc :=
  if self.prevSystemTime_ ≠ 0 ∧ systemTime > self.prevSystemTime_ then
    match self.prevProcTimes_ pid with
    | some prev =>
      if procTime ≥ prev then
        let procDelta := u64Sub procTime prev
        let sysDelta := u64Sub systemTime self.prevSystemTime_
        let wrapped := decide (procTime < prev) || decide (systemTime < self.prevSystemTime_)
        if sysDelta > 0 then
          ⟨fdiv (fmul 100 (u64ToDouble procDelta)) (u64ToDouble sysDelta), wrapped⟩
        else ⟨0, wrapped⟩
      else ⟨0, false⟩
    | none => ⟨0, false⟩
  else ⟨0, false⟩

/-- The row pushed for one snapshot entry (lines 152-157 and 176-190). -/
def buildRow (self : ProcessSampler) (systemTime : Nat) (entry : ProcessEntry) : ProcessRow :=
  { pid := entry.th32ProcessID
    ppid := entry.th32ParentProcessID
    threads := entry.cntThreads
    name := narrow entry.szExeFile
    cpuPercent := (computeCpu self systemTime entry.th32ProcessID (procTimeOf entry.query)).cpu
    workingSetMb := fdiv (u64ToDouble (workingSetOf entry.query)) (fmul 1024 1024) }

/-- The local variables `currentTimes` and `rows` of `sample`. -/
structure LoopState where
  currentTimes : Nat → Option Nat
  rows : List ProcessRow

/-- One iteration of the `while (hasProcess)` loop (lines 151-192). -/
def sampleStep (self : ProcessSampler) (systemTime : Nat) (acc : LoopState)
    (entry : ProcessEntry) : LoopState :=
  { currentTimes :=
      Function.update acc.currentTimes entry.th32ProcessID (some (procTimeOf entry.query))
    rows := acc.rows ++ [buildRow self systemTime entry] }

/-- The comparator given to `std::sort` (lines 199-204). -/
def sortLess (a b : ProcessRow) : Prop :=
  if a.cpuPercent = b.cpuPercent then a.pid < b.pid else a.cpuPercent > b.cpuPercent

instance sortLessDecidable : DecidableRel sortLess := fun a b => by
  unfold sortLess; exact inferInstance

/-- The order `std::sort` establishes: a row may stand before another when the
other is not less than it under the comparator. -/
def sortOrder (a b : ProcessRow) : Prop := ¬ sortLess b a

instance sortOrderDecidable : DecidableRel sortOrder := fun a b => by
  unfold sortOrder; exact inferInstance

/-- Method `ProcessSampler::sample` (lines 137-206): the rows returned and the state
of the sampler after the call. -/
def sample (self : ProcessSampler) (os : OsReading) : List ProcessRow × ProcessSampler :=
  let systemTime := readSystemTime os.systemTimes
  match os.snapshot with
  | none => ([], self)
  | some entries =>
    let fin := entries.foldl (sampleStep self systemTime) ⟨fun _ => none, []⟩
    (fin.rows.insertionSort sortOrder,
      { prevProcTimes_ := fin.currentTimes
        prevSystemTime_ := systemTime
        lastProcessCount_ := fin.rows.length })

/-- Method `ProcessSampler::lastProcessCount` (line 209). -/
def lastProcessCount (self : ProcessSampler) : Nat := self.lastProcessCount_

/-! ## `resolveMaxRows` -/

/-- Function `resolveMaxRows` (lines 422-442); `consoleRows` is the value returned by
`detectConsoleRows()` on line 423. -/
def resolveMaxRows (consoleRows : Nat) (opts : Options) : Nat :=
  let summaryLines := 3
  let tableHeaderLines := 2
  let extraPad := 1
  let reserved := summaryLines + tableHeaderLines + extraPad
  let rows := if consoleRows = 0 then 24 else consoleRows
  let visibleCapacity := if rows > reserved then rows - reserved else 0
  if opts.maxProcs > 0 then
    if visibleCapacity > 0 then min visibleCapacity opts.maxProcs
    else opts.maxProcs
  else visibleCapacity

/-! ## `formatUptime` -/

/-- Function `formatUptime` (lines 108-122): the text written to the string stream. -/
def formatUptime (milliseconds : Nat) : String :=
  let totalSeconds0 := milliseconds / 1000
  let days := totalSeconds0 / 86400
  let totalSeconds1 := totalSeconds0 % 86400
  let hours := totalSeconds1 / 3600
  let totalSeconds2 := totalSeconds1 % 3600
  let minutes := totalSeconds2 / 60
  let seconds := totalSeconds2 % 60
  (if days > 0 then toString days ++ "d " else "")
    ++ (toString hours ++ "h " ++ toString minutes ++ "m " ++ toString seconds ++ "s")

/-! ## `printTable` -/

/-- What `printTable` writes: the two header lines, and for every iteration of
its loop the row read by `rows[idx]`, in the order the lines are printed.  A
read past the end of the vector is recorded as `none`. -/
structure TableOutput where
  header : List String
  processLines : List (Option ProcessRow)
deriving Repr, DecidableEq

/-- The two header lines of the table (lines 310-316): the column titles padded
to widths 7, 7, 8, 12 and 9, and a rule of 60 dashes. -/
def tableHeader : List String :=
  ["PID    " ++ "PPID   " ++ "    CPU%" ++ "     MEM(MB)" ++ "  THREADS" ++ "  NAME",
   String.mk (List.replicate 60 '-')]

/-- Function `printTable` (lines 309-329). -/
def printTable (rows : List ProcessRow) (maxRows : Nat) : TableOutput :=
  let limit := if maxRows > 0 then min maxRows rows.length else rows.length
  { header := tableHeader
    processLines := (List.range limit).map (fun idx => rows.get? idx) }

/-! ## `parseOptions` -/

/-- Result of `parseSeconds` (lines 228-235): `none` when it returns `false`,
the parsed value when it returns `true`.  The argument `stod` is `std::stod`:
`none` when it throws. -/
def parseSeconds (stod : String → Option DoubleValue) (value : String) : Option DoubleValue :=
  match stod value with
  | none => none
  | some out => if out.isPositive then some out else none

/-- Result of `parsePid` (lines 238-246); `stoul` is `std::stoul`, `none` when
it throws; the `unsigned long` is cast to a 32-bit `DWORD`. -/
def parsePid (stoul : String → Option Nat) (value : String) : Option Nat :=
  match stoul value with
  | none => none
  | some parsed => some (parsed % 2 ^ 32)

/-- Result of `parseCount` (lines 249-260). -/
def parseCount (stoul : String → Option Nat) (value : String) : Option Nat :=
  match stoul value with
  | none => none
  | some parsed => if parsed = 0 then none else some (parsed % 2 ^ 64)

/-- The test `arg.rfind(pre, 0) == 0`: `arg` starts with `pre`. -/
def startsWith (arg pre : String) : Bool := pre.data.isPrefixOf arg.data

/-- The call `arg.substr(n)` for an `arg` of at least `n` characters. -/
def substrFrom (arg : String) (n : Nat) : String := String.mk (arg.data.drop n)

/-- The lambda of lines 344-348: every character through `std::tolower`. -/
def lowerCase (value : String) : String := String.mk (value.data.map Char.toLower)

/-- What `parseOptions` hands back: the returned `Options`, the two output
flags (both `false` on entry, as `main` passes them), and the value of the loop
variable `i` at an early `return` (`none` when the loop ran to its end). -/
structure ParseOutcome where
  opts : Options
  showHelp : Bool
  badArgs : Bool
  stoppedAt : Option Nat

/-- The `for` loop of `parseOptions` (lines 335-402) followed by lines 404-407;
the list holds `argv[i], argv[i+1], ...`. -/
def parseLoop (stod : String → Option DoubleValue) (stoul : String → Option Nat) :
    List String → Nat → Options → Bool → ParseOutcome
  | [], _, opts, secondsProvided =>
    { opts := if secondsProvided then { opts with topMode := true } else opts
      showHelp := false, badArgs := false, stoppedAt := none }
  | arg :: rest, i, opts, secondsProvided =>
    if arg = "-h" ∨ arg = "-?" ∨ arg = "--help" then
      { opts := opts, showHelp := true, badArgs := false, stoppedAt := some i }
    else if arg = "-t" ∨ arg = "--top" then
      parseLoop stod stoul rest (i + 1) { opts with topMode := true } secondsProvided
    else if startsWith arg "--top=" then
      let lower := lowerCase (substrFrom arg "--top=".length)
      if lower = "1" ∨ lower = "true" ∨ lower = "yes" ∨ lower = "on" then
        parseLoop stod stoul rest (i + 1) { opts with topMode := true } secondsProvided
      else if lower = "0" ∨ lower = "false" ∨ lower = "no" ∨ lower = "off" then
        parseLoop stod stoul rest (i + 1) { opts with topMode := false } secondsProvided
      else { opts := opts, showHelp := false, badArgs := true, stoppedAt := some i }
    else if arg = "-s" ∨ arg = "--seconds" then
      match rest with
      | [] => { opts := opts, showHelp := false, badArgs := true, stoppedAt := some i }
      | value :: rest' =>
        match parseSeconds stod value with
        | none => { opts := opts, showHelp := false, badArgs := true, stoppedAt := some (i + 1) }
        | some seconds =>
          parseLoop stod stoul rest' (i + 2) { opts with intervalSeconds := seconds } true
    else if arg = "-k" ∨ arg = "--kill" then
      match rest with
      | [] => { opts := opts, showHelp := false, badArgs := true, stoppedAt := some i }
      | value :: rest' =>
        match parsePid stoul value with
        | none => { opts := opts, showHelp := false, badArgs := true, stoppedAt := some (i + 1) }
        | some pid =>
          parseLoop stod stoul rest' (i + 2) { opts with killPid := some pid } secondsProvided
    else if arg = "-n" ∨ arg = "--numprocs" then
      match rest with
      | [] => { opts := opts, showHelp := false, badArgs := true, stoppedAt := some i }
      | value :: rest' =>
        match parseCount stoul value with
        | none => { opts := opts, showHelp := false, badArgs := true, stoppedAt := some (i + 1) }
        | some count =>
          parseLoop stod stoul rest' (i + 2) { opts with maxProcs := count } secondsProvided
    else if startsWith arg "--numprocs=" then
      match parseCount stoul (substrFrom arg "--numprocs=".length) with
      | none => { opts := opts, showHelp := false, badArgs := true, stoppedAt := some i }
      | some count =>
        parseLoop stod stoul rest (i + 1) { opts with maxProcs := count } secondsProvided
    else { opts := opts, showHelp := false, badArgs := true, stoppedAt := some i }

/-- Function `parseOptions` (lines 332-408): `argv` is the whole argument
vector, the loop starts at `argv[1]`. -/
def parseOptions (stod : String → Option DoubleValue) (stoul : String → Option Nat)
    (argv : List String) : ParseOutcome :=
  parseLoop stod stoul (argv.drop 1) 1 {} false

/-! ### One iteration of the parsing loop, as a view used in the proofs -/

/-- What the loop body does with an argument that takes no separate value:
it returns early with the given `showHelp` and `badArgs`, or it goes on to the
next argument with new options. -/
inductive SingleStep where
  | stop (showHelp badArgs : Bool)
  | next (opts : Options)

/-- The arguments for which the loop body reads `argv[++i]`. -/
def takesValue (arg : String) : Bool :=
  decide (¬ (arg = "-h" ∨ arg = "-?" ∨ arg = "--help") ∧ ¬ (arg = "-t" ∨ arg = "--top") ∧
    startsWith arg "--top=" = false ∧
    ((arg = "-s" ∨ arg = "--seconds") ∨ (arg = "-k" ∨ arg = "--kill") ∨
      (arg = "-n" ∨ arg = "--numprocs")))

/-- The loop body on an argument that takes no separate value. -/
def stepSingle (stoul : String → Option Nat) (arg : String) (opts : Options) : SingleStep :=
  if arg = "-h" ∨ arg = "-?" ∨ arg = "--help" then SingleStep.stop true false
  else if arg = "-t" ∨ arg = "--top" then SingleStep.next { opts with topMode := true }
  else if startsWith arg "--top=" then
    if lowerCase (substrFrom arg "--top=".length) = "1"
        ∨ lowerCase (substrFrom arg "--top=".length) = "true"
        ∨ lowerCase (substrFrom arg "--top=".length) = "yes"
        ∨ lowerCase (substrFrom arg "--top=".length) = "on" then
      SingleStep.next { opts with topMode := true }
    else if lowerCase (substrFrom arg "--top=".length) = "0"
        ∨ lowerCase (substrFrom arg "--top=".length) = "false"
        ∨ lowerCase (substrFrom arg "--top=".length) = "no"
        ∨ lowerCase (substrFrom arg "--top=".length) = "off" then
      SingleStep.next { opts with topMode := false }
    else SingleStep.stop false true
  else if startsWith arg "--numprocs=" then
    match parseCount stoul (substrFrom arg "--numprocs=".length) with
    | none => SingleStep.stop false true
    | some count => SingleStep.next { opts with maxProcs := count }
  else SingleStep.stop false true

/-- The loop body on an argument that takes a value, given that value: `none`
when the value is rejected, otherwise the new options and `secondsProvided`. -/
def stepValue (stod : String → Option DoubleValue) (stoul : String → Option Nat)
    (arg value : String) (opts : Options) (secondsProvided : Bool) : Option (Options × Bool) :=
  if arg = "-s" ∨ arg = "--seconds" then
    (parseSeconds stod value).map (fun seconds => ({ opts with intervalSeconds := seconds }, true))
  else if arg = "-k" ∨ arg = "--kill" then
    (parsePid stoul value).map (fun pid => ({ opts with killPid := some pid }, secondsProvided))
  else
    (parseCount stoul value).map (fun count => ({ opts with maxProcs := count }, secondsProvided))

/-- The property of `std::stod` and `std::stoul` that they throw on the two
spellings of the seconds flag, neither of which starts with a number. -/
def RejectsSecondsFlag (stod : String → Option DoubleValue) (stoul : String → Option Nat) :
    Prop :=
  stod "-s" = none ∧ stod "--seconds" = none ∧ stoul "-s" = none ∧ stoul "--seconds" = none

/-! ## Example inputs -/

/-- The `FILETIME` that holds the 64-bit count `n`. -/
def fileTimeOf (n : Nat) : FILETIME :=
  { dwLowDateTime := n % 2 ^ 32, dwHighDateTime := n / 2 ^ 32 % 2 ^ 32 }

/-- A snapshot entry for process `pid` whose queries succeed and report
`ticks` of kernel time and no user time. -/
def entryWithTicks (pid ticks : Nat) : ProcessEntry :=
  { th32ProcessID := pid, th32ParentProcessID := 4, cntThreads := 1, szExeFile := "proc.exe"
    query := { opened := true, times := some (fileTimeOf ticks, fileTimeOf 0),
               workingSetSize := some 1048576 } }

/-- A reading with system ticks `sys` and a snapshot of the given entries. -/
def readingOf (sys : Nat) (entries : List ProcessEntry) : OsReading :=
  { systemTimes := some { idle := fileTimeOf 0, kernel := fileTimeOf sys, user := fileTimeOf 0 }
    snapshot := some entries }

/-- A reading whose snapshot could not be created. -/
def failedReading (sys : Nat) : OsReading :=
  { systemTimes := some { idle := fileTimeOf 0, kernel := fileTimeOf sys, user := fileTimeOf 0 }
    snapshot := none }

/-- The injected previous state of the spec's delta example: system ticks
`1000`, process `7` at `100` ticks. -/
def injectedSampler : ProcessSampler :=
  { prevSystemTime_ := 1000
    prevProcTimes_ := fun pid => if pid = 7 then some 100 else none
    lastProcessCount_ := 1 }

/-- A snapshot entry for a process that `OpenProcess` refuses to open. -/
def entryDenied (pid : Nat) : ProcessEntry :=
  { th32ProcessID := pid, th32ParentProcessID := 0, cntThreads := 3, szExeFile := "System"
    query := { opened := false, times := none, workingSetSize := none } }

/-- A stand-in for `std::stoul` that accepts unsigned decimal numerals only and
rejects (throws on) every other string. -/
def decimalStoul (s : String) : Option Nat :=
  if s.data ≠ [] ∧ s.data.all Char.isDigit then
    some (s.data.foldl (fun acc c => 10 * acc + (c.toNat - '0'.toNat)) 0)
  else none

/-- A stand-in for `std::stod` that accepts unsigned decimal integers only. -/
def decimalStod (s : String) : Option DoubleValue :=
  (decimalStoul s).map (fun n => DoubleValue.finite (u64ToDouble n))

/-- A reading for which `GetSystemTimes` fails, so that `readSystemTime`
returns `0`, with a snapshot of the given entries. -/
def readingWithoutSystemTimes (entries : List ProcessEntry) : OsReading :=
  { systemTimes := none, snapshot := some entries }

/-! ## Contents of a snapshot, used to state what `sample` stores -/

/-- The busy ticks that a snapshot reports for `pid`, read off the snapshot
alone: those of the last entry that carries the pid (in the loop of `sample` a
later assignment to `currentTimes[pid]` overwrites an earlier one), and `none`
when no entry carries it. -/
def enumeratedTicks (entries : List ProcessEntry) (pid : Nat) : Option Nat :=
  (entries.reverse.find? (fun e => decide (e.th32ProcessID = pid))).map
    (fun e => procTimeOf e.query)

/-! ## Reference definitions taken from the specification -/

/-- The row limit as the specification words it (section 4.2): the viewport
height `r` with `0` replaced by the fallback `24`, `visibleCapacity` the
maximum of `0` and that height less the `6` reserved lines, and then
`min visibleCapacity c` for a positive cap `c` when `visibleCapacity > 0`, the
cap itself when `visibleCapacity = 0`, and `visibleCapacity` when there is no cap. -/
def resolveMaxRowsSpec (r c : Nat) : Nat :=
  let viewportRows : Int := if r = 0 then 24 else r
  let visibleCapacity : Nat := (max 0 (viewportRows - 6)).toNat
  if c > 0 ∧ visibleCapacity > 0 then min visibleCapacity c
  else if c > 0 then c
  else visibleCapacity

/-! ## Basic facts about the embedding -/

theorem u64Sub_of_le {a b : Nat} (hba : b ≤ a) (ha : a < 2 ^ 64) : u64Sub a b = a - b := by
  unfold u64Sub
  have h : a + 2 ^ 64 - b = (a - b) + 2 ^ 64 := by omega
  rw [h, Nat.add_mod_right]
  exact Nat.mod_eq_of_lt (by omega)

theorem fileTimeToUint64_lt (ft : FILETIME) : fileTimeToUint64 ft < 2 ^ 64 := by
  unfold fileTimeToUint64
  have h1 : ft.dwHighDateTime % 2 ^ 32 < 2 ^ 32 := Nat.mod_lt _ (by norm_num)
  have h2 : ft.dwLowDateTime % 2 ^ 32 < 2 ^ 32 := Nat.mod_lt _ (by norm_num)
  omega

theorem readSystemTime_lt (r : Option SystemTimes) : readSystemTime r < 2 ^ 64 := by
  cases r with
  | none => simp [readSystemTime]
  | some t => exact Nat.mod_lt _ (by norm_num)

theorem procTimeOf_lt (q : ProcessQuery) : procTimeOf q < 2 ^ 64 := by
  unfold procTimeOf
  split
  · split
    · exact Nat.mod_lt _ (by norm_num)
    · norm_num
  · norm_num

theorem fileTimeToUint64_fileTimeOf (n : Nat) (h : n < 2 ^ 64) :
    fileTimeToUint64 (fileTimeOf n) = n := by
  unfold fileTimeToUint64 fileTimeOf
  simp only [Nat.mod_mod]
  have h1 : n / 2 ^ 32 < 2 ^ 32 := by omega
  rw [Nat.mod_eq_of_lt h1]
  omega

theorem readSystemTime_readingOf (sys : Nat) (entries : List ProcessEntry) (h : sys < 2 ^ 64) :
    readSystemTime (readingOf sys entries).systemTimes = sys := by
  simp only [readingOf, readSystemTime]
  rw [fileTimeToUint64_fileTimeOf sys h, fileTimeToUint64_fileTimeOf 0 (by norm_num)]
  simp only [u64Add, u64Sub, Nat.add_zero, Nat.sub_zero, Nat.add_mod_right, Nat.mod_mod]
  exact Nat.mod_eq_of_lt h

theorem procTimeOf_entryWithTicks (pid ticks : Nat) (h : ticks < 2 ^ 64) :
    procTimeOf (entryWithTicks pid ticks).query = ticks := by
  simp only [entryWithTicks, procTimeOf, if_true]
  rw [fileTimeToUint64_fileTimeOf ticks h, fileTimeToUint64_fileTimeOf 0 (by norm_num)]
  simp only [u64Add, Nat.add_zero]
  exact Nat.mod_eq_of_lt h

/-! ### Rounding -/

theorem roundHalfEven_one (n : Nat) : roundHalfEven n 1 = n := by
  simp [roundHalfEven, Nat.mod_one]

theorem log2Aux_eq_log2 (fuel n : Nat) (h : n ≤ fuel) : log2Aux fuel n = Nat.log2 n := by
  induction fuel generalizing n with
  | zero =>
    have hn : n = 0 := by omega
    subst hn
    unfold Nat.log2
    simp [log2Aux]
  | succ fuel ih =>
    unfold log2Aux
    rw [Nat.log2]
    by_cases h2 : 2 ≤ n
    · have hle : n / 2 ≤ fuel := by omega
      simp [h2, ih (n / 2) hle]
    · simp [h2]

theorem bitLog2_eq_log2 (n : Nat) : bitLog2 n = Nat.log2 n :=
  log2Aux_eq_log2 n n (Nat.le_refl n)

theorem roundPos_one (n : Nat) (h0 : 0 < n) (h : n < 2 ^ 53) : roundPos n 1 = (n : ℚ) := by
  have hlog : bitLog2 n < 53 := by
    rw [bitLog2_eq_log2]
    exact (Nat.log2_lt (by omega)).2 h
  have hle : 2 ^ bitLog2 n ≤ n := by
    rw [bitLog2_eq_log2]
    exact Nat.log2_self_le (by omega)
  have hfl : floorLog2 n 1 = (bitLog2 n : Int) := by
    unfold floorLog2
    have h1 : bitLog2 1 = 0 := by decide
    simp [h1, hle]
  unfold roundPos
  rw [hfl]
  by_cases h52 : bitLog2 n = 52
  · simp [h52, roundHalfEven_one]
  · have hneg : ¬ (0 : Int) ≤ (bitLog2 n : Int) - 52 := by omega
    simp only [hneg, if_false, roundHalfEven_one]
    have hpos : ((2 ^ (-((bitLog2 n : Int) - 52)).toNat : Nat) : ℚ) ≠ 0 := by
      positivity
    rw [Nat.cast_mul, mul_div_assoc, div_self hpos, mul_one]

/-- Natural numbers below `2 ^ 53` are doubles: rounding leaves them unchanged. -/
theorem roundDouble_natCast (n : Nat) (h : n < 2 ^ 53) : roundDouble (n : ℚ) = (n : ℚ) := by
  unfold roundDouble
  by_cases h0 : n = 0
  · simp [h0]
  · have hpos : 0 < n := Nat.pos_of_ne_zero h0
    simp [h0, hpos, roundPos_one n hpos h]

theorem roundDouble_zero : roundDouble 0 = 0 := by
  simp [roundDouble]

/-! ### Correctness of the rounding -/

theorem roundHalfEven_cases (n d : Nat) :
    roundHalfEven n d = n / d ∨ roundHalfEven n d = n / d + 1 := by
  unfold roundHalfEven
  simp only []
  split
  · exact Or.inl rfl
  · split
    · exact Or.inr rfl
    · split
      · exact Or.inl rfl
      · exact Or.inr rfl

/-- The rounded quotient is within one half of the exact quotient, and on a
tie it is even. -/
theorem roundHalfEven_spec (n d : Nat) (hd : 0 < d) :
    2 * (roundHalfEven n d * d) ≤ 2 * n + d ∧ 2 * n ≤ 2 * (roundHalfEven n d * d) + d ∧
    ((2 * (roundHalfEven n d * d) = 2 * n + d ∨ 2 * n = 2 * (roundHalfEven n d * d) + d) →
      roundHalfEven n d % 2 = 0) := by
  have hdm : d * (n / d) + n % d = n := Nat.div_add_mod n d
  have hr : n % d < d := Nat.mod_lt n hd
  have hq : n / d * d = d * (n / d) := Nat.mul_comm _ _
  have hq1 : (n / d + 1) * d = d * (n / d) + d := by rw [Nat.add_mul, hq, Nat.one_mul]
  unfold roundHalfEven
  simp only []
  split
  · next h1 =>
    rw [hq]
    refine ⟨by omega, by omega, ?_⟩
    intro h; omega
  · next h1 =>
    split
    · next h2 =>
      rw [hq1]
      refine ⟨by omega, by omega, ?_⟩
      intro h; omega
    · next h2 =>
      split
      · next h3 =>
        rw [hq]
        exact ⟨by omega, by omega, fun _ => h3⟩
      · next h3 =>
        rw [hq1]
        refine ⟨by omega, by omega, fun _ => ?_⟩
        omega

theorem roundHalfEven_bounds (n d : Nat) (hd : 0 < d) (hlo : 2 ^ 52 * d ≤ n)
    (hhi : n < 2 ^ 53 * d) : 2 ^ 52 ≤ roundHalfEven n d ∧ roundHalfEven n d ≤ 2 ^ 53 := by
  have h1 : 2 ^ 52 ≤ n / d := (Nat.le_div_iff_mul_le hd).2 hlo
  have h2 : n / d < 2 ^ 53 := (Nat.div_lt_iff_lt_mul hd).2 hhi
  rcases roundHalfEven_cases n d with h | h <;> rw [h] <;> omega


theorem bitLog2_spec (n : Nat) (hn : 0 < n) : 2 ^ bitLog2 n ≤ n ∧ n < 2 ^ (bitLog2 n + 1) := by
  rw [bitLog2_eq_log2]
  exact ⟨Nat.log2_self_le (by omega), Nat.lt_log2_self⟩

/-- The exponent found by `floorLog2` is the binary exponent of `n / d`:
`2 ^ k ≤ n / d < 2 ^ (k + 1)`, written without fractions. -/
theorem floorLog2_spec (n d : Nat) (hn : 0 < n) (hd : 0 < d) :
    (0 ≤ floorLog2 n d →
      d * 2 ^ (floorLog2 n d).toNat ≤ n ∧ n < d * 2 ^ ((floorLog2 n d).toNat + 1)) ∧
    (floorLog2 n d < 0 →
      d ≤ n * 2 ^ (-floorLog2 n d).toNat ∧ n * 2 ^ (-floorLog2 n d).toNat < 2 * d) := by
  obtain ⟨ha1, ha2⟩ := bitLog2_spec n hn
  obtain ⟨hb1, hb2⟩ := bitLog2_spec d hd
  unfold floorLog2
  simp only []
  generalize bitLog2 n = a at ha1 ha2 ⊢
  generalize bitLog2 d = b at hb1 hb2 ⊢
  by_cases hab : b ≤ a
  · obtain ⟨K, rfl⟩ := Nat.exists_eq_add_of_le hab
    have hk : ((b + K : Nat) : Int) - (b : Int) = (K : Int) := by omega
    rw [hk]
    have h0 : (0 : Int) ≤ (K : Int) := by omega
    simp only [h0, if_true, Int.toNat_natCast]
    by_cases ht : d * 2 ^ K ≤ n
    · simp only [ht, if_true, Int.toNat_natCast]
      refine ⟨fun _ => ⟨trivial, ?_⟩, fun h => by omega⟩
      calc n < 2 ^ (b + K + 1) := ha2
        _ = 2 ^ b * 2 ^ (K + 1) := by rw [← pow_add]; rfl
        _ ≤ d * 2 ^ (K + 1) := Nat.mul_le_mul_right _ hb1
    · simp only [ht, if_false]
      cases K with
      | zero =>
        refine ⟨fun h => by omega, fun _ => ?_⟩
        have e1 : (-(((0 : Nat) : Int) - 1)).toNat = 1 := by decide
        rw [e1]
        simp only [pow_zero, Nat.mul_one, Nat.add_zero, pow_succ] at ht ha1 hb2 ⊢
        omega
      | succ K =>
        have e1 : (((K + 1 : Nat) : Int) - 1).toNat = K := by omega
        refine ⟨fun _ => ?_, fun h => by omega⟩
        rw [e1]
        refine ⟨?_, by omega⟩
        calc d * 2 ^ K ≤ 2 ^ (b + 1) * 2 ^ K := Nat.mul_le_mul_right _ (Nat.le_of_lt hb2)
          _ = 2 ^ (b + (K + 1)) := by rw [← pow_add]; congr 1; omega
          _ ≤ n := ha1
  · have hlt : a < b := by omega
    obtain ⟨K, rfl⟩ := Nat.exists_eq_add_of_lt hlt
    have hk : ((a : Nat) : Int) - ((a + K + 1 : Nat) : Int) = -((K + 1 : Nat) : Int) := by omega
    rw [hk]
    have h0 : ¬ (0 : Int) ≤ -((K + 1 : Nat) : Int) := by omega
    have e0 : (- -((K + 1 : Nat) : Int)).toNat = K + 1 := by omega
    simp only [h0, if_false, e0]
    by_cases ht : d ≤ n * 2 ^ (K + 1)
    · simp only [ht, if_true, e0]
      refine ⟨fun h => by omega, fun _ => ⟨trivial, ?_⟩⟩
      calc n * 2 ^ (K + 1) < 2 ^ (a + 1) * 2 ^ (K + 1) :=
            Nat.mul_lt_mul_of_pos_right ha2 (Nat.pow_pos (by norm_num))
        _ = 2 * 2 ^ (a + K + 1) := by rw [← pow_add, ← pow_succ']; congr 1; omega
        _ ≤ 2 * d := Nat.mul_le_mul_left _ hb1
    · simp only [ht, if_false]
      have e1 : (-(-((K + 1 : Nat) : Int) - 1)).toNat = K + 2 := by omega
      refine ⟨fun h => by omega, fun _ => ?_⟩
      rw [e1]
      constructor
      · calc d ≤ 2 ^ (a + K + 1 + 1) := Nat.le_of_lt hb2
          _ = 2 ^ a * 2 ^ (K + 2) := by rw [← pow_add]; rfl
          _ ≤ n * 2 ^ (K + 2) := Nat.mul_le_mul_right _ ha1
      · have hp : n * 2 ^ (K + 2) = 2 * (n * 2 ^ (K + 1)) := by
          rw [pow_succ 2 (K + 1)]; ring
        rw [hp]
        omega


/-- Rounding the fraction `N / D` of the range `[2 ^ 52, 2 ^ 53)` to an integer
and scaling by `s` gives a value within `s / 2` of `N / D * s`, with an even
integer on a tie. -/
theorem roundHalfEven_scaled (N D : Nat) (hD : 0 < D) (hlo : 2 ^ 52 * D ≤ N)
    (hhi : N < 2 ^ 53 * D) (s : ℚ) (hs : 0 < s) :
    (2 : ℚ) ^ 52 * s ≤ (N : ℚ) / D * s ∧ (N : ℚ) / D * s < 2 ^ 53 * s ∧
    |(roundHalfEven N D : ℚ) * s - (N : ℚ) / D * s| ≤ s / 2 ∧
    (|(roundHalfEven N D : ℚ) * s - (N : ℚ) / D * s| = s / 2 → roundHalfEven N D % 2 = 0) := by
  obtain ⟨h1, h2, h3⟩ := roundHalfEven_spec N D hD
  have hDq : (0 : ℚ) < (D : ℚ) := by exact_mod_cast hD
  have hloq : (2 : ℚ) ^ 52 * D ≤ N := by exact_mod_cast hlo
  have hhiq : (N : ℚ) < 2 ^ 53 * D := by exact_mod_cast hhi
  have h1q : (2 : ℚ) * ((roundHalfEven N D : ℚ) * D) ≤ 2 * N + D := by exact_mod_cast h1
  have h2q : (2 : ℚ) * N ≤ 2 * ((roundHalfEven N D : ℚ) * D) + D := by exact_mod_cast h2
  have hy : (N : ℚ) = (N : ℚ) / D * D := by field_simp
  generalize hm : (roundHalfEven N D : ℚ) = m at h1q h2q ⊢
  generalize (N : ℚ) / D = y at hy ⊢
  have hylo : (2 : ℚ) ^ 52 ≤ y := by
    rw [hy] at hloq
    exact le_of_mul_le_mul_right hloq hDq
  have hyhi : y < (2 : ℚ) ^ 53 := by
    rw [hy] at hhiq
    exact lt_of_mul_lt_mul_right hhiq (le_of_lt hDq)
  have hup : m - y ≤ 1 / 2 := by
    rw [hy] at h1q
    have : (2 * m) * D ≤ (2 * y + 1) * D := by linarith
    have := le_of_mul_le_mul_right this hDq
    linarith
  have hdown : y - m ≤ 1 / 2 := by
    rw [hy] at h2q
    have : (2 * y) * D ≤ (2 * m + 1) * D := by linarith
    have := le_of_mul_le_mul_right this hDq
    linarith
  have hfac : m * s - y * s = (m - y) * s := by ring
  refine ⟨mul_le_mul_of_nonneg_right hylo (le_of_lt hs),
    mul_lt_mul_of_pos_right hyhi hs, ?_, ?_⟩
  · rw [hfac, abs_mul, abs_of_pos hs]
    have habs : |m - y| ≤ 1 / 2 := abs_le.2 ⟨by linarith, hup⟩
    calc |m - y| * s ≤ 1 / 2 * s := mul_le_mul_of_nonneg_right habs (le_of_lt hs)
      _ = s / 2 := by ring
  · intro htie
    rw [hfac, abs_mul, abs_of_pos hs] at htie
    have habs : |m - y| = 1 / 2 := by
      have : |m - y| * s = 1 / 2 * s := by rw [htie]; ring
      exact mul_right_cancel₀ (ne_of_gt hs) this
    apply h3
    rcases abs_eq (by norm_num : (0 : ℚ) ≤ 1 / 2) |>.1 habs with h | h
    · left
      have : (2 : ℚ) * ((roundHalfEven N D : ℚ) * D) = 2 * N + D := by
        rw [hm, hy]
        have : m = y + 1 / 2 := by linarith
        rw [this]; ring
      exact_mod_cast this
    · right
      have : (2 : ℚ) * N = 2 * ((roundHalfEven N D : ℚ) * D) + D := by
        rw [hm, hy]
        have : m = y - 1 / 2 := by linarith
        rw [this]; ring
      exact_mod_cast this


/-- The value `roundPos n d` is the correctly rounded double of `n / d`: it is `m * 2 ^ e`
with a significand `2 ^ 52 ≤ m ≤ 2 ^ 53`, where `2 ^ e` is the spacing of the
doubles in the binade of `n / d`; it differs from `n / d` by at most half that
spacing, and on a tie the significand is even. -/
theorem roundPos_nearest (n d : Nat) (hn : 0 < n) (hd : 0 < d) :
    ∃ (m : Nat) (e : Int),
      roundPos n d = (m : ℚ) * (2 : ℚ) ^ e ∧
      2 ^ 52 ≤ m ∧ m ≤ 2 ^ 53 ∧
      (2 : ℚ) ^ 52 * (2 : ℚ) ^ e ≤ (n : ℚ) / d ∧ (n : ℚ) / d < 2 ^ 53 * (2 : ℚ) ^ e ∧
      |roundPos n d - (n : ℚ) / d| ≤ (2 : ℚ) ^ e / 2 ∧
      (|roundPos n d - (n : ℚ) / d| = (2 : ℚ) ^ e / 2 → m % 2 = 0) := by
  obtain ⟨hk1, hk2⟩ := floorLog2_spec n d hn hd
  unfold roundPos
  simp only []
  generalize floorLog2 n d = k at hk1 hk2 ⊢
  by_cases he : 0 ≤ k - 52
  · -- the fraction is at least `2 ^ 52`: the denominator is scaled
    obtain ⟨E, hE⟩ : ∃ E : Nat, k = (E : Int) + 52 := ⟨(k - 52).toNat, by omega⟩
    subst hE
    have e1 : ((E : Int) + 52 - 52).toNat = E := by omega
    have e2 : ((E : Int) + 52).toNat = E + 52 := by omega
    obtain ⟨hlo, hhi⟩ := hk1 (by omega)
    rw [e2] at hlo hhi
    have hD : 0 < d * 2 ^ E := Nat.mul_pos hd (Nat.pow_pos (by norm_num))
    have hlo' : 2 ^ 52 * (d * 2 ^ E) ≤ n := by
      have : 2 ^ 52 * (d * 2 ^ E) = d * 2 ^ (E + 52) := by rw [pow_add]; ring
      rw [this]; exact hlo
    have hhi' : n < 2 ^ 53 * (d * 2 ^ E) := by
      have : 2 ^ 53 * (d * 2 ^ E) = d * 2 ^ (E + 52 + 1) := by rw [pow_add, pow_add]; ring
      rw [this]; exact hhi
    have hs : (0 : ℚ) < (2 : ℚ) ^ E := by positivity
    obtain ⟨b1, b2, b3, b4⟩ := roundHalfEven_scaled n (d * 2 ^ E) hD hlo' hhi' ((2 : ℚ) ^ E) hs
    have hx : ((n : ℚ) / ((d * 2 ^ E : Nat) : ℚ)) * (2 : ℚ) ^ E = (n : ℚ) / d := by
      push_cast
      field_simp
      ring
    rw [hx] at b1 b2 b3 b4
    have hval : ((roundHalfEven n (d * 2 ^ E) * 2 ^ E : Nat) : ℚ)
        = (roundHalfEven n (d * 2 ^ E) : ℚ) * (2 : ℚ) ^ E := by push_cast; ring
    have hz : (2 : ℚ) ^ ((E : Int)) = (2 : ℚ) ^ E := zpow_natCast 2 E
    refine ⟨roundHalfEven n (d * 2 ^ E), (E : Int), ?_, ?_, ?_, ?_, ?_, ?_, ?_⟩
    · simp only [he, if_true, e1, hval, hz]
    · exact (roundHalfEven_bounds n _ hD hlo' hhi').1
    · exact (roundHalfEven_bounds n _ hD hlo' hhi').2
    · rw [hz]; exact b1
    · rw [hz]; exact b2
    · simp only [he, if_true, e1, hval, hz]; exact b3
    · simp only [he, if_true, e1, hval, hz]; exact b4
  · -- the fraction is below `2 ^ 52`: the numerator is scaled
    obtain ⟨E, hE⟩ : ∃ E : Nat, k = 52 - (E : Int) ∧ 0 < E :=
      ⟨(52 - k).toNat, by omega, by omega⟩
    obtain ⟨hE, hEpos⟩ := hE
    subst hE
    have e1 : (-(52 - (E : Int) - 52)).toNat = E := by omega
    have hlo' : 2 ^ 52 * d ≤ n * 2 ^ E := by
      by_cases hk : 0 ≤ 52 - (E : Int)
      · obtain ⟨hlo, _⟩ := hk1 hk
        obtain ⟨K, hK⟩ : ∃ K : Nat, (52 - (E : Int)).toNat = K ∧ K + E = 52 :=
          ⟨(52 - (E : Int)).toNat, rfl, by omega⟩
        rw [hK.1] at hlo
        calc 2 ^ 52 * d = d * 2 ^ K * 2 ^ E := by rw [← hK.2, pow_add]; ring
          _ ≤ n * 2 ^ E := Nat.mul_le_mul_right _ hlo
      · obtain ⟨hlo, _⟩ := hk2 (by omega)
        obtain ⟨K, hK⟩ : ∃ K : Nat, (-(52 - (E : Int))).toNat = K ∧ E = K + 52 :=
          ⟨(-(52 - (E : Int))).toNat, rfl, by omega⟩
        rw [hK.1] at hlo
        calc 2 ^ 52 * d ≤ 2 ^ 52 * (n * 2 ^ K) := Nat.mul_le_mul_left _ hlo
          _ = n * 2 ^ E := by rw [hK.2, pow_add]; ring
    have hhi' : n * 2 ^ E < 2 ^ 53 * d := by
      by_cases hk : 0 ≤ 52 - (E : Int)
      · obtain ⟨_, hhi⟩ := hk1 hk
        obtain ⟨K, hK⟩ : ∃ K : Nat, (52 - (E : Int)).toNat = K ∧ K + E = 52 :=
          ⟨(52 - (E : Int)).toNat, rfl, by omega⟩
        rw [hK.1] at hhi
        calc n * 2 ^ E < d * 2 ^ (K + 1) * 2 ^ E :=
              Nat.mul_lt_mul_of_pos_right hhi (Nat.pow_pos (by norm_num))
          _ = 2 ^ 53 * d := by
              have : (53 : Nat) = K + 1 + E := by omega
              rw [this, pow_add (2 : Nat) (K + 1) E]; ring
      · obtain ⟨_, hhi⟩ := hk2 (by omega)
        obtain ⟨K, hK⟩ : ∃ K : Nat, (-(52 - (E : Int))).toNat = K ∧ E = K + 52 :=
          ⟨(-(52 - (E : Int))).toNat, rfl, by omega⟩
        rw [hK.1] at hhi
        calc n * 2 ^ E = n * 2 ^ K * 2 ^ 52 := by rw [hK.2, pow_add]; ring
          _ < 2 * d * 2 ^ 52 := Nat.mul_lt_mul_of_pos_right hhi (by norm_num)
          _ = 2 ^ 53 * d := by ring
    have hs : (0 : ℚ) < ((2 : ℚ) ^ E)⁻¹ := by positivity
    obtain ⟨b1, b2, b3, b4⟩ := roundHalfEven_scaled (n * 2 ^ E) d hd hlo' hhi' _ hs
    have hx : (((n * 2 ^ E : Nat) : ℚ) / (d : ℚ)) * ((2 : ℚ) ^ E)⁻¹ = (n : ℚ) / d := by
      push_cast
      field_simp
      ring
    rw [hx] at b1 b2 b3 b4
    have hval : (roundHalfEven (n * 2 ^ E) d : ℚ) / ((2 ^ E : Nat) : ℚ)
        = (roundHalfEven (n * 2 ^ E) d : ℚ) * ((2 : ℚ) ^ E)⁻¹ := by
      push_cast
      rw [div_eq_mul_inv]
    have hz : (2 : ℚ) ^ (-(E : Int)) = ((2 : ℚ) ^ E)⁻¹ := by
      rw [zpow_neg, zpow_natCast]
    refine ⟨roundHalfEven (n * 2 ^ E) d, -(E : Int), ?_, ?_, ?_, ?_, ?_, ?_, ?_⟩
    · simp only [he, if_false, e1, hval, hz]
    · exact (roundHalfEven_bounds _ d hd hlo' hhi').1
    · exact (roundHalfEven_bounds _ d hd hlo' hhi').2
    · rw [hz]; exact b1
    · rw [hz]; exact b2
    · simp only [he, if_false, e1, hval, hz]; exact b3
    · simp only [he, if_false, e1, hval, hz]; exact b4


/-- The function `roundDouble` is IEEE-754 rounding to nearest, ties to even, on positive
rationals: the result is `m * 2 ^ e` with `2 ^ 52 ≤ m ≤ 2 ^ 53`, where
`2 ^ (e + 52) ≤ x < 2 ^ (e + 53)`, the error is at most half the spacing
`2 ^ e`, and the significand is even on a tie. -/
theorem roundDouble_nearest (x : ℚ) (hx : 0 < x) :
    ∃ (m : Nat) (e : Int),
      roundDouble x = (m : ℚ) * (2 : ℚ) ^ e ∧
      2 ^ 52 ≤ m ∧ m ≤ 2 ^ 53 ∧
      (2 : ℚ) ^ 52 * (2 : ℚ) ^ e ≤ x ∧ x < 2 ^ 53 * (2 : ℚ) ^ e ∧
      |roundDouble x - x| ≤ (2 : ℚ) ^ e / 2 ∧
      (|roundDouble x - x| = (2 : ℚ) ^ e / 2 → m % 2 = 0) := by
  have hnum : 0 < x.num := Rat.num_pos.2 hx
  have hnat : 0 < x.num.natAbs := Int.natAbs_pos.2 (ne_of_gt hnum)
  have hcast : ((x.num.natAbs : Nat) : ℚ) / (x.den : ℚ) = x := by
    have h1 : ((x.num.natAbs : Nat) : Int) = x.num := Int.natAbs_of_nonneg (le_of_lt hnum)
    have h2 : ((x.num.natAbs : Nat) : ℚ) = ((x.num : Int) : ℚ) := by
      rw [← Int.cast_natCast, h1]
    rw [h2]
    exact Rat.num_div_den x
  have hround : roundDouble x = roundPos x.num.natAbs x.den := by
    unfold roundDouble
    rw [if_neg (ne_of_gt hnum), if_pos hnum]
  have h := roundPos_nearest x.num.natAbs x.den hnat x.den_pos
  rw [hcast, ← hround] at h
  exact h

/-- Two known doubles: the double written `0.1` is `3602879701896397 / 2 ^ 55`,
and the double nearest to `100 / 3` is `4691249611844267 / 2 ^ 47`. -/
theorem roundDouble_known_values :
    roundDouble (1 / 10) = 3602879701896397 / 2 ^ 55 ∧
    roundDouble (100 / 3) = 4691249611844267 / 2 ^ 47 := by
  decide!

/-! ### The loop of `sample` -/

theorem foldl_sampleStep_rows (self : ProcessSampler) (systemTime : Nat)
    (entries : List ProcessEntry) (acc : LoopState) :
    (entries.foldl (sampleStep self systemTime) acc).rows
      = acc.rows ++ entries.map (buildRow self systemTime) := by
  induction entries generalizing acc with
  | nil => simp
  | cons e es ih =>
    rw [List.foldl_cons, ih]
    simp [sampleStep]

theorem foldl_sampleStep_times_of_not_mem (self : ProcessSampler) (systemTime pid : Nat)
    (entries : List ProcessEntry) (acc : LoopState)
    (h : ∀ e ∈ entries, e.th32ProcessID ≠ pid) :
    (entries.foldl (sampleStep self systemTime) acc).currentTimes pid = acc.currentTimes pid := by
  induction entries generalizing acc with
  | nil => rfl
  | cons e es ih =>
    rw [List.foldl_cons, ih _ (fun x hx => h x (List.mem_cons_of_mem _ hx))]
    have hne : pid ≠ e.th32ProcessID := fun hp => h e (List.mem_cons_self _ _) hp.symm
    simp [sampleStep, Function.update_noteq hne]

theorem foldl_sampleStep_times_isSome (self : ProcessSampler) (systemTime pid : Nat)
    (entries : List ProcessEntry) (acc : LoopState) :
    ((entries.foldl (sampleStep self systemTime) acc).currentTimes pid).isSome
      ↔ (∃ e ∈ entries, e.th32ProcessID = pid) ∨ (acc.currentTimes pid).isSome := by
  induction entries generalizing acc with
  | nil => simp
  | cons e es ih =>
    rw [List.foldl_cons, ih]
    by_cases hp : pid = e.th32ProcessID
    · subst hp
      simp [sampleStep]
    · have hp2 : ¬ e.th32ProcessID = pid := fun h => hp h.symm
      simp [sampleStep, Function.update_noteq hp, hp2]

theorem sample_rows (self : ProcessSampler) (os : OsReading) (entries : List ProcessEntry)
    (hsnap : os.snapshot = some entries) :
    (sample self os).1
      = (entries.map (buildRow self (readSystemTime os.systemTimes))).insertionSort sortOrder := by
  simp [sample, hsnap, foldl_sampleStep_rows]

theorem sample_state (self : ProcessSampler) (os : OsReading) (entries : List ProcessEntry)
    (hsnap : os.snapshot = some entries) :
    (sample self os).2
      = { prevProcTimes_ :=
            (entries.foldl (sampleStep self (readSystemTime os.systemTimes))
              ⟨fun _ => none, []⟩).currentTimes
          prevSystemTime_ := readSystemTime os.systemTimes
          lastProcessCount_ := entries.length } := by
  simp [sample, hsnap, foldl_sampleStep_rows]

theorem sample_failed (self : ProcessSampler) (os : OsReading) (hsnap : os.snapshot = none) :
    sample self os = ([], self) := by
  simp [sample, hsnap]

/-- Every returned row was built from an entry of the snapshot, and every
entry's row is returned. -/
theorem mem_sample_iff (self : ProcessSampler) (os : OsReading) (row : ProcessRow) :
    row ∈ (sample self os).1 ↔
      ∃ entries, os.snapshot = some entries ∧
        ∃ e ∈ entries, buildRow self (readSystemTime os.systemTimes) e = row := by
  cases hsnap : os.snapshot with
  | none => simp [sample_failed self os hsnap]
  | some entries =>
    rw [sample_rows self os entries hsnap, List.mem_insertionSort]
    simp


/-! ### The CPU computation -/

theorem computeCpu_wrapped (self : ProcessSampler) (systemTime pid procTime : Nat) :
    (computeCpu self systemTime pid procTime).wrapped = false := by
  unfold computeCpu
  split
  · next hg =>
    split
    · next prev _ =>
      split
      · next hp =>
        have h1 : ¬ procTime < prev := by omega
        have h2 : ¬ systemTime < self.prevSystemTime_ := by omega
        simp only []
        split <;> simp [h1, h2]
      · rfl
    · rfl
  · rfl

theorem computeCpu_no_baseline (self : ProcessSampler) (systemTime pid procTime : Nat)
    (h : self.prevSystemTime_ = 0 ∨ systemTime ≤ self.prevSystemTime_) :
    (computeCpu self systemTime pid procTime).cpu = 0 := by
  unfold computeCpu
  have hg : ¬ (self.prevSystemTime_ ≠ 0 ∧ systemTime > self.prevSystemTime_) := by
    rintro ⟨h1, h2⟩
    rcases h with h | h
    · exact h1 h
    · omega
  rw [if_neg hg]

theorem computeCpu_no_entry (self : ProcessSampler) (systemTime pid procTime : Nat)
    (h : self.prevProcTimes_ pid = none) :
    (computeCpu self systemTime pid procTime).cpu = 0 := by
  unfold computeCpu
  rw [h]
  split <;> rfl

theorem computeCpu_regressed (self : ProcessSampler) (systemTime pid procTime prev : Nat)
    (h : self.prevProcTimes_ pid = some prev) (hlt : procTime < prev) :
    (computeCpu self systemTime pid procTime).cpu = 0 := by
  unfold computeCpu
  rw [h]
  have hn : ¬ procTime ≥ prev := by omega
  simp only [hn, if_false]
  split <;> rfl

theorem computeCpu_delta (self : ProcessSampler) (systemTime pid procTime prev : Nat)
    (hS0 : self.prevSystemTime_ ≠ 0) (hS : self.prevSystemTime_ < systemTime)
    (hS64 : systemTime < 2 ^ 64)
    (h : self.prevProcTimes_ pid = some prev) (hp : prev ≤ procTime) (hp64 : procTime < 2 ^ 64) :
    (computeCpu self systemTime pid procTime).cpu
      = fdiv (fmul 100 (u64ToDouble (procTime - prev)))
          (u64ToDouble (systemTime - self.prevSystemTime_)) := by
  unfold computeCpu
  rw [h]
  have hg : (self.prevSystemTime_ ≠ 0 ∧ systemTime > self.prevSystemTime_) = True :=
    eq_true ⟨hS0, hS⟩
  have hge : procTime ≥ prev := hp
  have hsub : u64Sub systemTime self.prevSystemTime_ = systemTime - self.prevSystemTime_ :=
    u64Sub_of_le (Nat.le_of_lt hS) hS64
  have hpos : systemTime - self.prevSystemTime_ > 0 := by omega
  simp only [hg, hge, if_true, hsub, hpos, u64Sub_of_le hp hp64]

/-- With both conversions and the product exact, the computed value is the
exact quotient rounded once. -/
theorem fdiv_fmul_exact (a b : Nat) (ha : 100 * a < 2 ^ 53) (hb : b < 2 ^ 53) :
    fdiv (fmul 100 (u64ToDouble a)) (u64ToDouble b)
      = roundDouble ((100 * a : Nat) / (b : Nat)) := by
  unfold fdiv fmul u64ToDouble
  rw [roundDouble_natCast a (by omega), roundDouble_natCast b hb]
  have h : (100 : ℚ) * (a : ℚ) = ((100 * a : Nat) : ℚ) := by push_cast; ring
  rw [h, roundDouble_natCast (100 * a) ha]

theorem roundDouble_div_of_dvd (a b : Nat) (hb : 0 < b) (hdvd : b ∣ a) (ha : a < 2 ^ 53) :
    roundDouble ((a : ℚ) / (b : ℚ)) = (a : ℚ) / (b : ℚ) := by
  obtain ⟨c, rfl⟩ := hdvd
  have hb0 : (b : ℚ) ≠ 0 := by exact_mod_cast (Nat.pos_iff_ne_zero.mp hb)
  have hc : c < 2 ^ 53 := lt_of_le_of_lt (Nat.le_mul_of_pos_left c hb) ha
  have h : ((b * c : Nat) : ℚ) / (b : ℚ) = (c : ℚ) := by
    push_cast
    field_simp
  rw [h, roundDouble_natCast c hc]


theorem buildRow_pid (self : ProcessSampler) (systemTime : Nat) (e : ProcessEntry) :
    (buildRow self systemTime e).pid = e.th32ProcessID := rfl

theorem buildRow_cpuPercent (self : ProcessSampler) (systemTime : Nat) (e : ProcessEntry) :
    (buildRow self systemTime e).cpuPercent
      = (computeCpu self systemTime e.th32ProcessID (procTimeOf e.query)).cpu := rfl

/-- A row whose pid has no previous entry carries `cpuPercent = 0`. -/
theorem new_pid_zero_aux (self : ProcessSampler) (os : OsReading) (row : ProcessRow)
    (hrow : row ∈ (sample self os).1) (hnew : self.prevProcTimes_ row.pid = none) :
    row.cpuPercent = 0 := by
  obtain ⟨entries, _, e, _, rfl⟩ := (mem_sample_iff self os row).1 hrow
  rw [buildRow_cpuPercent]
  exact computeCpu_no_entry _ _ _ _ hnew

/-! ## The claims -/

/-- C1, the claim as stated fails: with previous state `{systemTicks = 1000,
process 7 at 100 ticks}` and a new reading `{systemTicks = 1300, process 7 at
200 ticks}` the row of process 7 carries the double nearest to `100 / 3`,
which is not the exact quotient `100 * (200 - 100) / (1300 - 1000)`. -/
theorem delta_quotient_is_rounded :
    injectedSampler.prevSystemTime_ = 1000 ∧ injectedSampler.prevProcTimes_ 7 = some 100 ∧
    readSystemTime (readingOf 1300 [entryWithTicks 7 200]).systemTimes = 1300 ∧
    procTimeOf (entryWithTicks 7 200).query = 200 ∧
    (sample injectedSampler (readingOf 1300 [entryWithTicks 7 200])).1.map
        (fun row => (row.pid, row.cpuPercent))
      = [(7, 4691249611844267 / 140737488355328)] ∧
    (4691249611844267 / 140737488355328 : ℚ) ≠ 100 * (200 - 100) / (1300 - 1000) := by
  decide!

/-- C1 (amended), delta correctness: when the previous system baseline `S0` is
non-zero, the previous mapping holds `pid` with `p0` ticks, and the new reading
has system ticks `S1 > S0` and enumerates `pid` with `p1 ≥ p0` ticks, then a row
for `pid` is returned and its `cpuPercent` is the quotient computed in double
arithmetic, `fl (fl (100 * fl (p1 - p0)) / fl (S1 - S0))`.  When
`100 * (p1 - p0)` and `S1 - S0` are below `2 ^ 53` this is the exact quotient
`100 * (p1 - p0) / (S1 - S0)` rounded once to the nearest double, and it is the
exact quotient when moreover `S1 - S0` divides `100 * (p1 - p0)`. -/
theorem sample_delta (self : ProcessSampler) (os : OsReading) (entries : List ProcessEntry)
    (pid p0 p1 : Nat)
    (hsnap : os.snapshot = some entries)
    (hS0 : self.prevSystemTime_ ≠ 0)
    (hS : self.prevSystemTime_ < readSystemTime os.systemTimes)
    (hprev : self.prevProcTimes_ pid = some p0)
    (hin : ∃ e ∈ entries, e.th32ProcessID = pid)
    (hticks : ∀ e ∈ entries, e.th32ProcessID = pid → procTimeOf e.query = p1)
    (hp : p0 ≤ p1) :
    (∃ row ∈ (sample self os).1, row.pid = pid) ∧
    ∀ row ∈ (sample self os).1, row.pid = pid →
      row.cpuPercent
          = fdiv (fmul 100 (u64ToDouble (p1 - p0)))
              (u64ToDouble (readSystemTime os.systemTimes - self.prevSystemTime_)) ∧
      (100 * (p1 - p0) < 2 ^ 53 →
        readSystemTime os.systemTimes - self.prevSystemTime_ < 2 ^ 53 →
        row.cpuPercent
          = roundDouble (100 * ((p1 : ℚ) - (p0 : ℚ))
              / ((readSystemTime os.systemTimes : ℚ) - (self.prevSystemTime_ : ℚ)))) ∧
      (100 * (p1 - p0) < 2 ^ 53 →
        readSystemTime os.systemTimes - self.prevSystemTime_ < 2 ^ 53 →
        (readSystemTime os.systemTimes - self.prevSystemTime_) ∣ 100 * (p1 - p0) →
        row.cpuPercent
          = 100 * ((p1 : ℚ) - (p0 : ℚ))
              / ((readSystemTime os.systemTimes : ℚ) - (self.prevSystemTime_ : ℚ))) := by
  constructor
  · obtain ⟨e, he, hpid⟩ := hin
    exact ⟨buildRow self (readSystemTime os.systemTimes) e,
      (mem_sample_iff self os _).2 ⟨entries, hsnap, e, he, rfl⟩, hpid⟩
  · intro row hrow hpid
    obtain ⟨entries', hsnap', e, he, rfl⟩ := (mem_sample_iff self os row).1 hrow
    have hentries : entries' = entries := Option.some.inj (hsnap'.symm.trans hsnap)
    subst hentries
    rw [buildRow_pid] at hpid
    have hp1 : procTimeOf e.query = p1 := hticks e he hpid
    have hcpu := computeCpu_delta self (readSystemTime os.systemTimes) e.th32ProcessID
      (procTimeOf e.query) p0 hS0 hS (readSystemTime_lt _) (hpid ▸ hprev) (hp1 ▸ hp)
      (procTimeOf_lt _)
    rw [hp1] at hcpu
    rw [buildRow_cpuPercent, hp1, hcpu]
    have hq : 100 * ((p1 : ℚ) - (p0 : ℚ))
          / ((readSystemTime os.systemTimes : ℚ) - (self.prevSystemTime_ : ℚ))
        = ((100 * (p1 - p0) : Nat) : ℚ)
          / ((readSystemTime os.systemTimes - self.prevSystemTime_ : Nat) : ℚ) := by
      rw [Nat.cast_mul, Nat.cast_sub hp, Nat.cast_sub (Nat.le_of_lt hS)]
      norm_num
    refine ⟨rfl, ?_, ?_⟩
    · intro ha hb
      rw [hq]
      exact fdiv_fmul_exact _ _ ha hb
    · intro ha hb hdvd
      rw [hq, fdiv_fmul_exact _ _ ha hb]
      exact roundDouble_div_of_dvd _ _ (by omega) hdvd ha

/-- C1 (amended), the spec's example: `S0 = 1000`, `p0 = 100`, `S1 = 1100`,
`p1 = 150` gives exactly `50`. -/
theorem sample_delta_example :
    (∃ row ∈ (sample injectedSampler (readingOf 1100 [entryWithTicks 7 150])).1, row.pid = 7) ∧
    (∀ row ∈ (sample injectedSampler (readingOf 1100 [entryWithTicks 7 150])).1,
      row.pid = 7 → row.cpuPercent = 50) := by
  have hS1 : readSystemTime (readingOf 1100 [entryWithTicks 7 150]).systemTimes = 1100 :=
    readSystemTime_readingOf 1100 _ (by norm_num)
  have h := sample_delta injectedSampler (readingOf 1100 [entryWithTicks 7 150])
    [entryWithTicks 7 150] 7 100 150 rfl (by decide) (by rw [hS1]; decide) rfl
    ⟨entryWithTicks 7 150, List.mem_singleton.2 rfl, rfl⟩
    (by
      intro e he _
      rw [List.mem_singleton.1 he]
      exact procTimeOf_entryWithTicks 7 150 (by norm_num))
    (by decide)
  refine ⟨h.1, fun row hrow hpid => ?_⟩
  have h3 := (h.2 row hrow hpid).2.2
  rw [hS1] at h3
  rw [h3 (by decide) (by decide) (by decide)]
  simp only [injectedSampler]
  norm_num


/-- C2, first-call zero rule: whatever the system-time reading and the process
enumeration are, every row returned by the first `sample` call on a freshly
constructed sampler has `cpuPercent = 0`. -/
theorem first_sample_all_zero (os : OsReading) (row : ProcessRow)
    (hrow : row ∈ (sample {} os).1) : row.cpuPercent = 0 := by
  obtain ⟨entries, _, e, _, rfl⟩ := (mem_sample_iff {} os row).1 hrow
  rw [buildRow_cpuPercent]
  exact computeCpu_no_baseline _ _ _ _ (Or.inl rfl)

/-- C2 at a concrete input: a fresh sampler reading system ticks `5000` and one
process with `900` busy ticks returns that process with `cpuPercent = 0`. -/
theorem first_sample_all_zero_example :
    buildRow {} 5000 (entryWithTicks 7 900)
        ∈ (sample {} (readingOf 5000 [entryWithTicks 7 900])).1 ∧
    (buildRow {} 5000 (entryWithTicks 7 900)).cpuPercent = 0 :=
  have hmem : buildRow {} 5000 (entryWithTicks 7 900)
      ∈ (sample {} (readingOf 5000 [entryWithTicks 7 900])).1 :=
    (mem_sample_iff _ _ _).2 ⟨[entryWithTicks 7 900], rfl, entryWithTicks 7 900,
      List.mem_singleton.2 rfl, by rw [readSystemTime_readingOf 5000 _ (by norm_num)]⟩
  ⟨hmem, first_sample_all_zero _ _ hmem⟩

/-- C3, counter-regression safety: when the new system-tick reading is less
than or equal to the previous one, every row returned by `sample` has
`cpuPercent = 0`, and for every pid and every current per-process tick value
the CPU computation yields `0` (not a negative value) without executing a
wrapping unsigned subtraction. -/
theorem regression_all_zero (self : ProcessSampler) (os : OsReading)
    (hreg : readSystemTime os.systemTimes ≤ self.prevSystemTime_) :
    (∀ row ∈ (sample self os).1, row.cpuPercent = 0) ∧
    (∀ pid procTime : Nat,
      (computeCpu self (readSystemTime os.systemTimes) pid procTime).cpu = 0 ∧
      (computeCpu self (readSystemTime os.systemTimes) pid procTime).wrapped = false) := by
  constructor
  · intro row hrow
    obtain ⟨entries, _, e, _, rfl⟩ := (mem_sample_iff self os row).1 hrow
    rw [buildRow_cpuPercent]
    exact computeCpu_no_baseline _ _ _ _ (Or.inr hreg)
  · intro pid procTime
    exact ⟨computeCpu_no_baseline _ _ _ _ (Or.inr hreg), computeCpu_wrapped _ _ _ _⟩

/-- C3 at a concrete input: previous system ticks `1000`, new reading `900`,
process `7` going from `100` to `150` ticks (and, for the computation alone, a
process whose ticks fell from `100` to `50`). -/
theorem regression_all_zero_example :
    readSystemTime (readingOf 900 [entryWithTicks 7 150]).systemTimes
      ≤ injectedSampler.prevSystemTime_ ∧
    (sample injectedSampler (readingOf 900 [entryWithTicks 7 150])).1.map
        (fun row => (row.pid, row.cpuPercent)) = [(7, 0)] ∧
    (computeCpu injectedSampler 900 7 50).cpu = 0 ∧
    (computeCpu injectedSampler 900 7 50).wrapped = false := by
  have hS : readSystemTime (readingOf 900 [entryWithTicks 7 150]).systemTimes = 900 :=
    readSystemTime_readingOf 900 _ (by norm_num)
  have hreg : readSystemTime (readingOf 900 [entryWithTicks 7 150]).systemTimes
      ≤ injectedSampler.prevSystemTime_ := by rw [hS]; decide
  have h := regression_all_zero injectedSampler (readingOf 900 [entryWithTicks 7 150]) hreg
  have hrows : (sample injectedSampler (readingOf 900 [entryWithTicks 7 150])).1
      = [buildRow injectedSampler 900 (entryWithTicks 7 150)] := by
    rw [sample_rows _ _ [entryWithTicks 7 150] rfl, hS]
    rfl
  have hcpu := h.1 (buildRow injectedSampler 900 (entryWithTicks 7 150))
    (by rw [hrows]; exact List.mem_singleton.2 rfl)
  have h2 := h.2 7 50
  rw [hS] at h2
  refine ⟨hreg, ?_, h2.1, h2.2⟩
  rw [hrows, List.map_singleton, hcpu]
  rfl

/-- C4, new or reused pid: a row whose pid has no entry in the previous
per-process mapping has `cpuPercent = 0`, whatever busy ticks are reported for
it and whatever the system-time delta is. -/
theorem new_pid_zero (self : ProcessSampler) (os : OsReading) (row : ProcessRow)
    (hrow : row ∈ (sample self os).1) (hnew : self.prevProcTimes_ row.pid = none) :
    row.cpuPercent = 0 := by
  obtain ⟨entries, _, e, _, rfl⟩ := (mem_sample_iff self os row).1 hrow
  rw [buildRow_cpuPercent]
  exact computeCpu_no_entry _ _ _ _ hnew

/-- C4 at a concrete input: the injected state knows only pid `7`; pid `9`
reports `5000` busy ticks while the system ticks go from `1000` to `2000`. -/
theorem new_pid_zero_example :
    buildRow injectedSampler 2000 (entryWithTicks 9 5000)
        ∈ (sample injectedSampler (readingOf 2000 [entryWithTicks 9 5000])).1 ∧
    injectedSampler.prevProcTimes_ (buildRow injectedSampler 2000 (entryWithTicks 9 5000)).pid
        = none ∧
    (buildRow injectedSampler 2000 (entryWithTicks 9 5000)).cpuPercent = 0 :=
  have hmem : buildRow injectedSampler 2000 (entryWithTicks 9 5000)
      ∈ (sample injectedSampler (readingOf 2000 [entryWithTicks 9 5000])).1 :=
    (mem_sample_iff _ _ _).2 ⟨[entryWithTicks 9 5000], rfl, entryWithTicks 9 5000,
      List.mem_singleton.2 rfl, by rw [readSystemTime_readingOf 2000 _ (by norm_num)]⟩
  ⟨hmem, rfl, new_pid_zero _ _ _ hmem rfl⟩


/-! ### State after a successful call -/

theorem sample_prevProcTimes_isSome (self : ProcessSampler) (os : OsReading)
    (entries : List ProcessEntry) (hsnap : os.snapshot = some entries) (pid : Nat) :
    ((sample self os).2.prevProcTimes_ pid).isSome ↔ ∃ e ∈ entries, e.th32ProcessID = pid := by
  rw [sample_state self os entries hsnap]
  simp [foldl_sampleStep_times_isSome]

theorem sample_prevProcTimes_of_not_mem (self : ProcessSampler) (os : OsReading)
    (entries : List ProcessEntry) (hsnap : os.snapshot = some entries) (pid : Nat)
    (hout : ∀ e ∈ entries, e.th32ProcessID ≠ pid) :
    (sample self os).2.prevProcTimes_ pid = none := by
  rw [sample_state self os entries hsnap]
  exact foldl_sampleStep_times_of_not_mem _ _ _ _ _ hout

/-- After the loop of `sample` the map holds, for every pid, the ticks read in
this loop for the last entry carrying it, and the initial value only for a
pid that no entry carries. -/
theorem foldl_sampleStep_times_eq (self : ProcessSampler) (systemTime pid : Nat)
    (entries : List ProcessEntry) (acc : LoopState) :
    (entries.foldl (sampleStep self systemTime) acc).currentTimes pid
      = (enumeratedTicks entries pid).or (acc.currentTimes pid) := by
  induction entries using List.reverseRecOn with
  | nil => simp [enumeratedTicks]
  | append_singleton es e ih =>
    rw [List.foldl_append, List.foldl_cons, List.foldl_nil]
    by_cases hp : e.th32ProcessID = pid
    · subst hp
      simp [sampleStep, enumeratedTicks]
    · have hne : pid ≠ e.th32ProcessID := fun h => hp h.symm
      have hstep : (sampleStep self systemTime (es.foldl (sampleStep self systemTime) acc)
          e).currentTimes pid = (es.foldl (sampleStep self systemTime) acc).currentTimes pid := by
        simp [sampleStep, Function.update_noteq hne]
      rw [hstep, ih]
      simp [enumeratedTicks, hp]

theorem sample_prevProcTimes_eq (self : ProcessSampler) (os : OsReading)
    (entries : List ProcessEntry) (hsnap : os.snapshot = some entries) (pid : Nat) :
    (sample self os).2.prevProcTimes_ pid = enumeratedTicks entries pid := by
  rw [sample_state self os entries hsnap]
  simp [foldl_sampleStep_times_eq]

theorem sample_prevProcTimes_of_mem (self : ProcessSampler) (os : OsReading)
    (entries : List ProcessEntry) (hsnap : os.snapshot = some entries) (e : ProcessEntry)
    (he : e ∈ entries)
    (hall : ∀ x ∈ entries, x.th32ProcessID = e.th32ProcessID →
      procTimeOf x.query = procTimeOf e.query) :
    (sample self os).2.prevProcTimes_ e.th32ProcessID = some (procTimeOf e.query) := by
  rw [sample_prevProcTimes_eq self os entries hsnap]
  unfold enumeratedTicks
  cases hfind : entries.reverse.find? (fun x => decide (x.th32ProcessID = e.th32ProcessID)) with
  | none =>
    have hnone := List.find?_eq_none.1 hfind e (List.mem_reverse.2 he)
    simp at hnone
  | some x =>
    have hpx : x.th32ProcessID = e.th32ProcessID := by
      simpa using List.find?_some hfind
    have hmx : x ∈ entries := List.mem_reverse.1 (List.mem_of_find?_eq_some hfind)
    simp [hall x hmx hpx]

/-- C5, state replacement. For three successive successful `sample` calls:
(1) a pid that is absent from the enumeration of the second call has
`cpuPercent = 0` in every row the third call returns for it, whatever the tick
values and the system-time readings are (in particular when the first call
enumerated it); (2), (3) after the first and after the second call the previous
mapping has an entry exactly for the pids enumerated in that call; (4), (5) the
value it stores for a pid after the first and after the second call is the
tick count read in that very call (`enumeratedTicks` of that call's snapshot),
and nothing for a pid that call did not enumerate; (6) spelled out for the
second call without `enumeratedTicks`: an enumerated process whose pid is
reported with one tick count is stored with exactly that count; (7) the
mapping left by the second call is the same whatever sampler state the call
started from, so that nothing of it comes from earlier calls. -/
theorem state_replaced (self : ProcessSampler) (os1 os2 os3 : OsReading)
    (entries1 entries2 : List ProcessEntry) (pid : Nat)
    (hsnap1 : os1.snapshot = some entries1) (hsnap2 : os2.snapshot = some entries2)
    (hout : ∀ e ∈ entries2, e.th32ProcessID ≠ pid) :
    (∀ row ∈ (sample (sample (sample self os1).2 os2).2 os3).1,
      row.pid = pid → row.cpuPercent = 0) ∧
    (∀ p, ((sample self os1).2.prevProcTimes_ p).isSome
      ↔ ∃ e ∈ entries1, e.th32ProcessID = p) ∧
    (∀ p, ((sample (sample self os1).2 os2).2.prevProcTimes_ p).isSome
      ↔ ∃ e ∈ entries2, e.th32ProcessID = p) ∧
    (∀ p, (sample self os1).2.prevProcTimes_ p = enumeratedTicks entries1 p) ∧
    (∀ p, (sample (sample self os1).2 os2).2.prevProcTimes_ p = enumeratedTicks entries2 p) ∧
    (∀ e ∈ entries2,
      (∀ x ∈ entries2, x.th32ProcessID = e.th32ProcessID →
        procTimeOf x.query = procTimeOf e.query) →
      (sample (sample self os1).2 os2).2.prevProcTimes_ e.th32ProcessID
        = some (procTimeOf e.query)) ∧
    (∀ other : ProcessSampler,
      (sample other os2).2.prevProcTimes_
        = (sample (sample self os1).2 os2).2.prevProcTimes_) := by
  refine ⟨fun row hrow hpid => ?_, sample_prevProcTimes_isSome self os1 entries1 hsnap1,
    sample_prevProcTimes_isSome _ os2 entries2 hsnap2,
    sample_prevProcTimes_eq self os1 entries1 hsnap1,
    sample_prevProcTimes_eq _ os2 entries2 hsnap2,
    fun e he hall => sample_prevProcTimes_of_mem _ os2 entries2 hsnap2 e he hall,
    fun other => ?_⟩
  · apply new_pid_zero_aux _ os3 row hrow
    rw [hpid]
    exact sample_prevProcTimes_of_not_mem _ os2 entries2 hsnap2 pid hout
  · funext p
    rw [sample_prevProcTimes_eq other os2 entries2 hsnap2,
      sample_prevProcTimes_eq _ os2 entries2 hsnap2]


/-- C5 at a concrete input: pid `7` is enumerated with `100` ticks in the first
call, is absent in the second, and comes back with `500` ticks in the third,
while the system ticks go `1000`, `2000`, `3000`; its row in the third call has
`cpuPercent = 0`. After the first call the mapping holds `100` for pid `7`
and `10` for pid `8`; after the second call it holds nothing for pid `7` and,
for pid `8`, the `20` ticks read in the second call, not the `10` of the
first. -/
theorem state_replaced_example :
    (∃ e ∈ [entryWithTicks 7 100, entryWithTicks 8 10], e.th32ProcessID = 7) ∧
    (∀ e ∈ [entryWithTicks 8 20], e.th32ProcessID ≠ 7) ∧
    buildRow
        (sample (sample {} (readingOf 1000 [entryWithTicks 7 100, entryWithTicks 8 10])).2
          (readingOf 2000 [entryWithTicks 8 20])).2
        3000 (entryWithTicks 7 500)
      ∈ (sample
          (sample (sample {} (readingOf 1000 [entryWithTicks 7 100, entryWithTicks 8 10])).2
            (readingOf 2000 [entryWithTicks 8 20])).2
          (readingOf 3000 [entryWithTicks 7 500, entryWithTicks 8 30])).1 ∧
    (buildRow
        (sample (sample {} (readingOf 1000 [entryWithTicks 7 100, entryWithTicks 8 10])).2
          (readingOf 2000 [entryWithTicks 8 20])).2
        3000 (entryWithTicks 7 500)).cpuPercent = 0 ∧
    (sample {} (readingOf 1000 [entryWithTicks 7 100, entryWithTicks 8 10])).2.prevProcTimes_ 7
      = some 100 ∧
    (sample {} (readingOf 1000 [entryWithTicks 7 100, entryWithTicks 8 10])).2.prevProcTimes_ 8
      = some 10 ∧
    (sample (sample {} (readingOf 1000 [entryWithTicks 7 100, entryWithTicks 8 10])).2
      (readingOf 2000 [entryWithTicks 8 20])).2.prevProcTimes_ 7 = none ∧
    (sample (sample {} (readingOf 1000 [entryWithTicks 7 100, entryWithTicks 8 10])).2
      (readingOf 2000 [entryWithTicks 8 20])).2.prevProcTimes_ 8 = some 20 :=
  have hmem : buildRow
        (sample (sample {} (readingOf 1000 [entryWithTicks 7 100, entryWithTicks 8 10])).2
          (readingOf 2000 [entryWithTicks 8 20])).2
        3000 (entryWithTicks 7 500)
      ∈ (sample
          (sample (sample {} (readingOf 1000 [entryWithTicks 7 100, entryWithTicks 8 10])).2
            (readingOf 2000 [entryWithTicks 8 20])).2
          (readingOf 3000 [entryWithTicks 7 500, entryWithTicks 8 30])).1 :=
    (mem_sample_iff _ _ _).2 ⟨_, rfl, entryWithTicks 7 500, List.mem_cons_self _ _,
      by rw [readSystemTime_readingOf 3000 _ (by norm_num)]⟩
  have hall := state_replaced {} (readingOf 1000 [entryWithTicks 7 100, entryWithTicks 8 10])
      (readingOf 2000 [entryWithTicks 8 20])
      (readingOf 3000 [entryWithTicks 7 500, entryWithTicks 8 30])
      _ _ 7 rfl rfl (by decide)
  ⟨⟨entryWithTicks 7 100, List.mem_cons_self _ _, rfl⟩, by decide, hmem,
    hall.1 _ hmem rfl,
    (hall.2.2.2.1 7).trans (by decide),
    (hall.2.2.2.1 8).trans (by decide),
    (hall.2.2.2.2.1 7).trans (by decide),
    (hall.2.2.2.2.1 8).trans (by decide)⟩

/-! ### The order established by the sort -/

theorem sortOrder_iff (a b : ProcessRow) :
    sortOrder a b ↔
      a.cpuPercent > b.cpuPercent ∨ (a.cpuPercent = b.cpuPercent ∧ a.pid ≤ b.pid) := by
  unfold sortOrder sortLess
  by_cases h : b.cpuPercent = a.cpuPercent
  · simp [h]
  · have h2 : ¬ a.cpuPercent = b.cpuPercent := fun h3 => h h3.symm
    simp only [h, h2, if_false, gt_iff_lt, not_lt, false_and, or_false]
    exact ⟨fun hle => lt_of_le_of_ne hle h, le_of_lt⟩

instance sortOrder_total : IsTotal ProcessRow sortOrder where
  total a b := by
    rw [sortOrder_iff, sortOrder_iff]
    rcases lt_trichotomy a.cpuPercent b.cpuPercent with h | h | h
    · exact Or.inr (Or.inl h)
    · rcases le_total a.pid b.pid with hp | hp
      · exact Or.inl (Or.inr ⟨h, hp⟩)
      · exact Or.inr (Or.inr ⟨h.symm, hp⟩)
    · exact Or.inl (Or.inl h)

instance sortOrder_trans : IsTrans ProcessRow sortOrder where
  trans a b c := by
    rw [sortOrder_iff, sortOrder_iff, sortOrder_iff]
    rintro (h1 | ⟨h1, p1⟩) (h2 | ⟨h2, p2⟩)
    · exact Or.inl (lt_trans h2 h1)
    · exact Or.inl (h2 ▸ h1)
    · exact Or.inl (h1 ▸ h2)
    · exact Or.inr ⟨h1.trans h2, le_trans p1 p2⟩

theorem sample_pairwise (self : ProcessSampler) (os : OsReading) :
    (sample self os).1.Pairwise sortOrder := by
  cases hsnap : os.snapshot with
  | none => simp [sample_failed self os hsnap]
  | some entries =>
    rw [sample_rows self os entries hsnap]
    exact List.sorted_insertionSort sortOrder _

/-- C6, ranking order: in the list returned by `sample`, for any two positions
`i < j` either `cpuPercent[i] > cpuPercent[j]`, or `cpuPercent[i] =
cpuPercent[j]` and `pid[i] ≤ pid[j]`; and when all rows have equal `cpuPercent`
the pids are in ascending order. -/
theorem sample_ranked (self : ProcessSampler) (os : OsReading) :
    (∀ (i j : Nat) (hij : i < j) (hj : j < (sample self os).1.length),
      ((sample self os).1.get ⟨i, lt_trans hij hj⟩).cpuPercent
          > ((sample self os).1.get ⟨j, hj⟩).cpuPercent ∨
        (((sample self os).1.get ⟨i, lt_trans hij hj⟩).cpuPercent
            = ((sample self os).1.get ⟨j, hj⟩).cpuPercent ∧
          ((sample self os).1.get ⟨i, lt_trans hij hj⟩).pid
            ≤ ((sample self os).1.get ⟨j, hj⟩).pid)) ∧
    ((∀ a ∈ (sample self os).1, ∀ b ∈ (sample self os).1, a.cpuPercent = b.cpuPercent) →
      ((sample self os).1.map (fun row => row.pid)).Pairwise (fun p q => p ≤ q)) := by
  have hpw := sample_pairwise self os
  constructor
  · intro i j hij hj
    rw [← sortOrder_iff]
    exact List.pairwise_iff_get.1 hpw ⟨i, lt_trans hij hj⟩ ⟨j, hj⟩ hij
  · intro heq
    rw [List.pairwise_map]
    refine hpw.imp_of_mem ?_
    intro a b ha hb hab
    rcases (sortOrder_iff a b).1 hab with h | h
    · exact absurd (heq a ha b hb) (ne_of_gt h)
    · exact h.2

/-- C6 at concrete inputs: a first call (all `cpuPercent` equal to `0`) on pids
enumerated as `9, 3, 7` returns them as `3, 7, 9`; a following call in which
pid `7` used `30` of `100` system ticks, pid `9` used `50` and pid `3` none
returns `9, 7, 3`. -/
theorem sample_ranked_example :
    (sample {} (readingOf 1000
        [entryWithTicks 9 10, entryWithTicks 3 20, entryWithTicks 7 30])).1.map
      (fun row => (row.pid, row.cpuPercent)) = [(3, 0), (7, 0), (9, 0)] ∧
    (sample
        (sample {} (readingOf 1000
          [entryWithTicks 9 10, entryWithTicks 3 20, entryWithTicks 7 30])).2
        (readingOf 1100
          [entryWithTicks 3 20, entryWithTicks 7 60, entryWithTicks 9 60])).1.map
      (fun row => (row.pid, row.cpuPercent)) = [(9, 50), (7, 30), (3, 0)] := by
  decide!


/-- C7, `resolveMaxRows` refines its reference definition: for every viewport
row count `r` and every user cap `c` the code returns what the specification's
wording gives, and the four examples of the specification evaluate to `18`,
`18`, `5` and `10`. -/
theorem resolveMaxRows_eq_spec :
    (∀ (r : Nat) (opts : Options),
      resolveMaxRows r opts = resolveMaxRowsSpec r opts.maxProcs) ∧
    resolveMaxRows 24 { maxProcs := 0 } = 18 ∧
    resolveMaxRows 0 { maxProcs := 0 } = 18 ∧
    resolveMaxRows 24 { maxProcs := 5 } = 5 ∧
    resolveMaxRows 3 { maxProcs := 10 } = 10 := by
  refine ⟨fun r opts => ?_, by decide, by decide, by decide, by decide⟩
  unfold resolveMaxRows resolveMaxRowsSpec
  by_cases hr : r = 0
  · subst hr
    by_cases hc : opts.maxProcs > 0
    · simp [hc]
    · simp [hc]
  · have hvis : (max 0 (((r : Nat) : Int) - 6)).toNat = r - 6 := by omega
    simp only [hr, if_false, hvis]
    by_cases hc : opts.maxProcs > 0
    · by_cases h6 : r > 6
      · have h6' : r > 3 + 2 + 1 := h6
        have hpos : r - 6 > 0 := by omega
        have hpos' : r - (3 + 2 + 1) > 0 := hpos
        simp [hc, h6', hpos]
      · have h6' : ¬ r > 3 + 2 + 1 := h6
        have hz : r - 6 = 0 := by omega
        simp [hc, h6', hz]
    · by_cases h6 : r > 6
      · have h6' : r > 3 + 2 + 1 := h6
        simp [hc, h6']
      · have h6' : ¬ r > 3 + 2 + 1 := h6
        have hz : r - 6 = 0 := by omega
        simp [hc, h6', hz]

/-- C8, the claim as stated fails: after a successful call that returned one
row, a call whose snapshot cannot be created returns no rows, yet
`lastProcessCount` still answers `1`. -/
theorem lastProcessCount_stale_after_failure :
    (sample (sample {} (readingOf 5000 [entryWithTicks 7 900])).2 (failedReading 6000)).1 = [] ∧
    lastProcessCount
      (sample (sample {} (readingOf 5000 [entryWithTicks 7 900])).2 (failedReading 6000)).2
      = 1 ∧
    lastProcessCount
      (sample (sample {} (readingOf 5000 [entryWithTicks 7 900])).2 (failedReading 6000)).2
      ≠ (sample (sample {} (readingOf 5000 [entryWithTicks 7 900])).2
          (failedReading 6000)).1.length := by
  decide

/-- C8 (amended): `lastProcessCount` returns `0` on a freshly constructed
sampler; after a `sample` call whose enumeration succeeded it returns the
number of rows that call returned; a call whose snapshot cannot be created
returns no rows and leaves the count as it was before the call. -/
theorem lastProcessCount_spec :
    lastProcessCount {} = 0 ∧
    (∀ (self : ProcessSampler) (os : OsReading), os.snapshot ≠ none →
      lastProcessCount (sample self os).2 = (sample self os).1.length) ∧
    (∀ (self : ProcessSampler) (os : OsReading), os.snapshot = none →
      (sample self os).1 = [] ∧
      lastProcessCount (sample self os).2 = lastProcessCount self) := by
  refine ⟨rfl, ?_, ?_⟩
  · intro self os hsnap
    cases hs : os.snapshot with
    | none => exact absurd hs hsnap
    | some entries =>
      rw [sample_rows self os entries hs, sample_state self os entries hs]
      simp [lastProcessCount]
  · intro self os hsnap
    rw [sample_failed self os hsnap]
    exact ⟨rfl, rfl⟩


/-! ### Processes whose queries fail -/

theorem procTimeOf_failed (q : ProcessQuery) (h : q.opened = false ∨ q.times = none) :
    procTimeOf q = 0 := by
  unfold procTimeOf
  rcases h with h | h
  · simp [h]
  · simp [h]

theorem workingSetOf_failed (q : ProcessQuery)
    (h : q.opened = false ∨ q.workingSetSize = none) : workingSetOf q = 0 := by
  unfold workingSetOf
  rcases h with h | h
  · simp [h]
  · simp [h]

theorem computeCpu_zero_ticks (self : ProcessSampler) (systemTime pid : Nat) :
    (computeCpu self systemTime pid 0).cpu = 0 := by
  cases hprev : self.prevProcTimes_ pid with
  | none => exact computeCpu_no_entry _ _ _ _ hprev
  | some prev =>
    by_cases h0 : prev = 0
    · subst h0
      unfold computeCpu
      rw [hprev]
      have hsub : u64Sub 0 0 = 0 := by decide
      have hz : fdiv (fmul 100 (u64ToDouble 0)) (u64ToDouble (u64Sub systemTime self.prevSystemTime_))
          = 0 := by
        simp [fdiv, fmul, u64ToDouble, roundDouble_zero]
      simp only [hsub, hz]
      split
      · split
        · split <;> rfl
        · rfl
      · rfl
    · exact computeCpu_regressed _ _ _ _ prev hprev (Nat.pos_of_ne_zero h0)

theorem foldl_sampleStep_times_of_forall (self : ProcessSampler) (systemTime pid ticks : Nat)
    (entries : List ProcessEntry) (acc : LoopState)
    (hin : ∃ e ∈ entries, e.th32ProcessID = pid)
    (hall : ∀ e ∈ entries, e.th32ProcessID = pid → procTimeOf e.query = ticks) :
    (entries.foldl (sampleStep self systemTime) acc).currentTimes pid = some ticks := by
  induction entries generalizing acc with
  | nil =>
    obtain ⟨e, he, _⟩ := hin
    exact absurd he (List.not_mem_nil e)
  | cons x xs ih =>
    rw [List.foldl_cons]
    by_cases hlater : ∃ e ∈ xs, e.th32ProcessID = pid
    · exact ih _ hlater (fun e he => hall e (List.mem_cons_of_mem _ he))
    · have hnone : ∀ e ∈ xs, e.th32ProcessID ≠ pid := fun e he hp => hlater ⟨e, he, hp⟩
      rw [foldl_sampleStep_times_of_not_mem _ _ _ _ _ hnone]
      obtain ⟨e, he, hp⟩ := hin
      rcases List.mem_cons.1 he with hx | hx
      · subst hx
        have ht := hall e (List.mem_cons_self _ _) hp
        simp [sampleStep, ← hp, ht]
      · exact absurd hp (hnone e hx)

/-- C9, no process is dropped: for every successful enumeration the rows
returned by `sample` are a permutation of the rows built from the enumerated
entries, one per entry, each with the entry's pid, parent pid, thread count and
name; a process whose memory query fails has `workingSetMb = 0`, a process whose
time query fails has `cpuPercent = 0`, and when the time query fails for the
entries enumerated with a pid, the new baseline mapping records `0` busy ticks
for that pid. -/
theorem no_process_dropped (self : ProcessSampler) (os : OsReading)
    (entries : List ProcessEntry) (hsnap : os.snapshot = some entries) :
    List.Perm (sample self os).1
      (entries.map (buildRow self (readSystemTime os.systemTimes))) ∧
    (sample self os).1.length = entries.length ∧
    (∀ e : ProcessEntry,
      (buildRow self (readSystemTime os.systemTimes) e).pid = e.th32ProcessID ∧
      (buildRow self (readSystemTime os.systemTimes) e).ppid = e.th32ParentProcessID ∧
      (buildRow self (readSystemTime os.systemTimes) e).threads = e.cntThreads ∧
      (buildRow self (readSystemTime os.systemTimes) e).name = e.szExeFile ∧
      ((e.query.opened = false ∨ e.query.workingSetSize = none) →
        (buildRow self (readSystemTime os.systemTimes) e).workingSetMb = 0) ∧
      ((e.query.opened = false ∨ e.query.times = none) →
        (buildRow self (readSystemTime os.systemTimes) e).cpuPercent = 0)) ∧
    (∀ e ∈ entries,
      (∀ x ∈ entries, x.th32ProcessID = e.th32ProcessID →
        (x.query.opened = false ∨ x.query.times = none)) →
      (sample self os).2.prevProcTimes_ e.th32ProcessID = some 0) := by
  refine ⟨?_, ?_, ?_, ?_⟩
  · rw [sample_rows self os entries hsnap]
    exact List.perm_insertionSort sortOrder _
  · rw [sample_rows self os entries hsnap]
    simp
  · intro e
    refine ⟨rfl, rfl, rfl, rfl, ?_, ?_⟩
    · intro hfail
      simp [buildRow, workingSetOf_failed e.query hfail, fdiv, u64ToDouble, roundDouble_zero]
    · intro hfail
      rw [buildRow_cpuPercent, procTimeOf_failed e.query hfail]
      exact computeCpu_zero_ticks _ _ _
  · intro e he hfail
    rw [sample_state self os entries hsnap]
    exact foldl_sampleStep_times_of_forall _ _ _ 0 _ _ ⟨e, he, rfl⟩
      (fun x hx hp => procTimeOf_failed x.query (hfail x hx hp))

/-- C9 at a concrete input: the injected state (pid `7` at `100` ticks, system
ticks `1000`) reads system ticks `1100` and a snapshot of pid `4`, which cannot
be opened, and pid `7` at `150` ticks; both rows are returned, pid `7` first
with `50` percent, pid `4` with no CPU and no memory, and the new mapping
records `0` ticks for pid `4`. -/
theorem no_process_dropped_example :
    (sample injectedSampler (readingOf 1100 [entryDenied 4, entryWithTicks 7 150])).1
      = [{ pid := 7, ppid := 4, cpuPercent := 50, workingSetMb := 1, threads := 1,
           name := "proc.exe" },
         { pid := 4, ppid := 0, cpuPercent := 0, workingSetMb := 0, threads := 3,
           name := "System" }] ∧
    (sample injectedSampler
      (readingOf 1100 [entryDenied 4, entryWithTicks 7 150])).2.prevProcTimes_ 4 = some 0 :=
  ⟨by decide!,
    (no_process_dropped injectedSampler (readingOf 1100 [entryDenied 4, entryWithTicks 7 150])
      [entryDenied 4, entryWithTicks 7 150] rfl).2.2.2 (entryDenied 4)
      (List.mem_cons_self _ _) (by decide)⟩

/-- C10, per-process counter discontinuity: a process whose current busy ticks
are strictly less than its entry in the previous mapping has its row returned
with `cpuPercent = 0`, which is not negative, and the computation executes no
wrapping unsigned subtraction; this holds for every sampler state, in
particular with a valid system baseline (previous system ticks non-zero and
current system ticks greater). -/
theorem discontinuity_zero (self : ProcessSampler) (os : OsReading)
    (entries : List ProcessEntry) (e : ProcessEntry) (prev : Nat)
    (hsnap : os.snapshot = some entries) (he : e ∈ entries)
    (hprev : self.prevProcTimes_ e.th32ProcessID = some prev)
    (hlt : procTimeOf e.query < prev) :
    buildRow self (readSystemTime os.systemTimes) e ∈ (sample self os).1 ∧
    (buildRow self (readSystemTime os.systemTimes) e).cpuPercent = 0 ∧
    0 ≤ (buildRow self (readSystemTime os.systemTimes) e).cpuPercent ∧
    (computeCpu self (readSystemTime os.systemTimes) e.th32ProcessID
      (procTimeOf e.query)).wrapped = false := by
  have hcpu : (buildRow self (readSystemTime os.systemTimes) e).cpuPercent = 0 := by
    rw [buildRow_cpuPercent]
    exact computeCpu_regressed _ _ _ _ prev hprev hlt
  exact ⟨(mem_sample_iff self os _).2 ⟨entries, hsnap, e, he, rfl⟩, hcpu,
    le_of_eq hcpu.symm, computeCpu_wrapped _ _ _ _⟩

/-- C10 at a concrete input: previous system ticks `1000`, current `1100`, and
pid `7` falling from `100` to `40` busy ticks. -/
theorem discontinuity_zero_example :
    injectedSampler.prevSystemTime_ ≠ 0 ∧
    injectedSampler.prevSystemTime_
      < readSystemTime (readingOf 1100 [entryWithTicks 7 40]).systemTimes ∧
    injectedSampler.prevProcTimes_ 7 = some 100 ∧
    procTimeOf (entryWithTicks 7 40).query < 100 ∧
    (sample injectedSampler (readingOf 1100 [entryWithTicks 7 40])).1.map
      (fun row => (row.pid, row.cpuPercent)) = [(7, 0)] ∧
    (computeCpu injectedSampler 1100 7 40).wrapped = false := by
  have hS : readSystemTime (readingOf 1100 [entryWithTicks 7 40]).systemTimes = 1100 :=
    readSystemTime_readingOf 1100 _ (by norm_num)
  have hp : procTimeOf (entryWithTicks 7 40).query = 40 :=
    procTimeOf_entryWithTicks 7 40 (by norm_num)
  have h := discontinuity_zero injectedSampler (readingOf 1100 [entryWithTicks 7 40])
    [entryWithTicks 7 40] (entryWithTicks 7 40) 100 rfl (List.mem_singleton.2 rfl) rfl
    (by rw [hp]; decide)
  have hrows : (sample injectedSampler (readingOf 1100 [entryWithTicks 7 40])).1
      = [buildRow injectedSampler 1100 (entryWithTicks 7 40)] := by
    rw [sample_rows _ _ [entryWithTicks 7 40] rfl, hS]
    rfl
  rw [hS, hp] at h
  refine ⟨by decide, by rw [hS]; decide, rfl, by rw [hp]; decide, ?_, h.2.2.2⟩
  rw [hrows, List.map_singleton, h.2.1]
  rfl


/-! ### Independence from the enumeration order -/

theorem foldl_sampleStep_times_perm (self : ProcessSampler) (systemTime pid : Nat)
    (entries1 entries2 : List ProcessEntry) (hperm : List.Perm entries1 entries2)
    (hnodup : (entries1.map (fun e => e.th32ProcessID)).Nodup) :
    (entries1.foldl (sampleStep self systemTime) ⟨fun _ => none, []⟩).currentTimes pid
      = (entries2.foldl (sampleStep self systemTime) ⟨fun _ => none, []⟩).currentTimes pid := by
  by_cases hin : ∃ e ∈ entries1, e.th32ProcessID = pid
  · obtain ⟨e, he, hpid⟩ := hin
    have hall1 : ∀ x ∈ entries1, x.th32ProcessID = pid →
        procTimeOf x.query = procTimeOf e.query := by
      intro x hx hxp
      rw [List.inj_on_of_nodup_map hnodup hx he (hxp.trans hpid.symm)]
    have hall2 : ∀ x ∈ entries2, x.th32ProcessID = pid →
        procTimeOf x.query = procTimeOf e.query :=
      fun x hx hxp => hall1 x (hperm.symm.subset hx) hxp
    rw [foldl_sampleStep_times_of_forall self systemTime pid _ entries1 _ ⟨e, he, hpid⟩ hall1,
      foldl_sampleStep_times_of_forall self systemTime pid _ entries2 _
        ⟨e, hperm.subset he, hpid⟩ hall2]
  · have h1 : ∀ e ∈ entries1, e.th32ProcessID ≠ pid := fun e he hp => hin ⟨e, he, hp⟩
    have h2 : ∀ e ∈ entries2, e.th32ProcessID ≠ pid :=
      fun e he hp => hin ⟨e, hperm.symm.subset he, hp⟩
    rw [foldl_sampleStep_times_of_not_mem _ _ _ _ _ h1,
      foldl_sampleStep_times_of_not_mem _ _ _ _ _ h2]

theorem insertionSort_buildRow_perm (self : ProcessSampler) (systemTime : Nat)
    (entries1 entries2 : List ProcessEntry) (hperm : List.Perm entries1 entries2)
    (hnodup : (entries1.map (fun e => e.th32ProcessID)).Nodup) :
    (entries1.map (buildRow self systemTime)).insertionSort sortOrder
      = (entries2.map (buildRow self systemTime)).insertionSort sortOrder := by
  apply @List.Perm.eq_of_sorted _ sortOrder
  · intro a b ha hb hab hba
    rw [List.mem_insertionSort, List.mem_map] at ha hb
    obtain ⟨ea, hea, rfl⟩ := ha
    obtain ⟨eb, heb, rfl⟩ := hb
    have hpid : ea.th32ProcessID = eb.th32ProcessID := by
      rcases (sortOrder_iff _ _).1 hab with h | h
      · rcases (sortOrder_iff _ _).1 hba with h' | h'
        · exact absurd h (not_lt_of_gt h')
        · exact absurd h'.1 (ne_of_lt h)
      · rcases (sortOrder_iff _ _).1 hba with h' | h'
        · exact absurd h.1 (ne_of_lt h')
        · exact Nat.le_antisymm h.2 h'.2
    rw [List.inj_on_of_nodup_map hnodup hea (hperm.symm.subset heb) hpid]
  · exact List.sorted_insertionSort sortOrder _
  · exact List.sorted_insertionSort sortOrder _
  · exact ((List.perm_insertionSort sortOrder _).trans (hperm.map _)).trans
      (List.perm_insertionSort sortOrder _).symm

/-- C11, independence from the enumeration order: for every sampler state and
system-time reading, two snapshots that are permutations of one another and
hold pairwise distinct pids make `sample` return the same rows in the same
order and leave the same sampler state. -/
theorem sample_order_independent (self : ProcessSampler) (systemTimes : Option SystemTimes)
    (entries1 entries2 : List ProcessEntry) (hperm : List.Perm entries1 entries2)
    (hnodup : (entries1.map (fun e => e.th32ProcessID)).Nodup) :
    sample self { systemTimes := systemTimes, snapshot := some entries1 }
      = sample self { systemTimes := systemTimes, snapshot := some entries2 } := by
  apply Prod.ext
  · rw [sample_rows self _ entries1 rfl, sample_rows self _ entries2 rfl]
    exact insertionSort_buildRow_perm self _ entries1 entries2 hperm hnodup
  · rw [sample_state self _ entries1 rfl, sample_state self _ entries2 rfl]
    have hfun : (entries1.foldl (sampleStep self (readSystemTime systemTimes))
          ⟨fun _ => none, []⟩).currentTimes
        = (entries2.foldl (sampleStep self (readSystemTime systemTimes))
          ⟨fun _ => none, []⟩).currentTimes :=
      funext fun pid => foldl_sampleStep_times_perm self _ pid entries1 entries2 hperm hnodup
    simp only [hfun, hperm.length_eq]

/-- C11 at a concrete input: the injected state reads pids `7`, `9`, `3` in
two different orders; both calls return the rows in the order `7`, `3`, `9`. -/
theorem sample_order_independent_example :
    List.Perm [entryWithTicks 9 10, entryWithTicks 7 150, entryWithTicks 3 20]
      [entryWithTicks 3 20, entryWithTicks 9 10, entryWithTicks 7 150] ∧
    ([entryWithTicks 9 10, entryWithTicks 7 150, entryWithTicks 3 20].map
      (fun e => e.th32ProcessID)).Nodup ∧
    sample injectedSampler
        (readingOf 1100 [entryWithTicks 9 10, entryWithTicks 7 150, entryWithTicks 3 20])
      = sample injectedSampler
        (readingOf 1100 [entryWithTicks 3 20, entryWithTicks 9 10, entryWithTicks 7 150]) ∧
    (sample injectedSampler
        (readingOf 1100 [entryWithTicks 3 20, entryWithTicks 9 10, entryWithTicks 7 150])).1.map
      (fun row => (row.pid, row.cpuPercent)) = [(7, 50), (3, 0), (9, 0)] :=
  have hperm : List.Perm [entryWithTicks 9 10, entryWithTicks 7 150, entryWithTicks 3 20]
      [entryWithTicks 3 20, entryWithTicks 9 10, entryWithTicks 7 150] := by decide
  have hnodup : ([entryWithTicks 9 10, entryWithTicks 7 150, entryWithTicks 3 20].map
      (fun e => e.th32ProcessID)).Nodup := by decide
  ⟨hperm, hnodup, sample_order_independent injectedSampler _ _ _ hperm hnodup, by decide!⟩

/-! ### The table -/

theorem map_get?_range (rows : List ProcessRow) (k : Nat) (hk : k ≤ rows.length) :
    (List.range k).map (fun idx => rows.get? idx) = (rows.take k).map some := by
  induction k with
  | zero => simp
  | succ k ih =>
    have hlt : k < rows.length := hk
    rw [List.range_succ, List.map_append, ih (Nat.le_of_lt hlt), List.take_succ,
      List.map_append]
    simp [List.getElem?_eq_getElem hlt]

theorem printTable_lines_all (rows : List ProcessRow) :
    (printTable rows 0).processLines = rows.map some := by
  unfold printTable
  simp only [gt_iff_lt, Nat.lt_irrefl, if_false]
  rw [map_get?_range rows rows.length (Nat.le_refl _), List.take_length]

theorem printTable_lines_limit (rows : List ProcessRow) (maxRows : Nat) (hpos : maxRows > 0) :
    (printTable rows maxRows).processLines
      = (rows.take (min maxRows rows.length)).map some := by
  unfold printTable
  simp only [hpos, if_true]
  exact map_get?_range rows _ (Nat.min_le_right _ _)

/-- C12, the claim as stated fails: a console of `5` rows and no user cap give
the row limit `0`, and `printTable` called with that limit on a list of two
rows prints both of them. -/
theorem degenerate_terminal_prints_all :
    resolveMaxRows 5 { maxProcs := 0 } = 0 ∧
    (printTable [{ pid := 4, name := "System" }, { pid := 7, name := "proc.exe" }]
        (resolveMaxRows 5 { maxProcs := 0 })).processLines
      = [some { pid := 4, name := "System" }, some { pid := 7, name := "proc.exe" }] ∧
    (printTable [{ pid := 4, name := "System" }, { pid := 7, name := "proc.exe" }]
        (resolveMaxRows 5 { maxProcs := 0 })).processLines ≠ [] := by
  decide

/-- C12 (amended): for every viewport height `r` with `1 ≤ r ≤ 6` and no user
cap, `resolveMaxRows` returns `0`, and `printTable` called with that row limit
prints the header and then every row of the list, in order, reading only
indices inside the list (a row limit of `0` means "show all"). -/
theorem degenerate_terminal (r : Nat) (opts : Options) (h1 : 1 ≤ r) (h6 : r ≤ 6)
    (hcap : opts.maxProcs = 0) :
    resolveMaxRows r opts = 0 ∧
    ∀ rows : List ProcessRow,
      (printTable rows (resolveMaxRows r opts)).header = tableHeader ∧
      (printTable rows (resolveMaxRows r opts)).processLines = rows.map some := by
  have hres : resolveMaxRows r opts = 0 := by
    unfold resolveMaxRows
    have hr : r ≠ 0 := by omega
    have hnot : ¬ r > 3 + 2 + 1 := by omega
    simp [hcap, hr, hnot]
  refine ⟨hres, fun rows => ⟨rfl, ?_⟩⟩
  rw [hres]
  exact printTable_lines_all rows

/-- C12 (amended) at a concrete input: a console of `3` rows, no cap, two rows. -/
theorem degenerate_terminal_example :
    resolveMaxRows 3 {} = 0 ∧
    (printTable [{ pid := 4 }, { pid := 7 }] (resolveMaxRows 3 {})).processLines
      = [some { pid := 4 }, some { pid := 7 }] :=
  ⟨(degenerate_terminal 3 {} (by decide) (by decide) rfl).1,
    ((degenerate_terminal 3 {} (by decide) (by decide) rfl).2 [{ pid := 4 }, { pid := 7 }]).2⟩

/-- C13, the user's cap is a maximum: for every viewport row count and every
positive user cap `c`, `resolveMaxRows` returns a value `v` with `1 ≤ v ≤ c`. -/
theorem resolveMaxRows_within_cap (consoleRows : Nat) (opts : Options)
    (hcap : opts.maxProcs > 0) :
    1 ≤ resolveMaxRows consoleRows opts ∧ resolveMaxRows consoleRows opts ≤ opts.maxProcs := by
  unfold resolveMaxRows
  simp only [hcap, if_true]
  generalize (if (if consoleRows = 0 then 24 else consoleRows) > 3 + 2 + 1
    then (if consoleRows = 0 then 24 else consoleRows) - (3 + 2 + 1) else 0) = visibleCapacity
  by_cases hvis : visibleCapacity > 0
  · rw [if_pos hvis]
    exact ⟨Nat.le_min.2 ⟨hvis, hcap⟩, Nat.min_le_right _ _⟩
  · rw [if_neg hvis]
    exact ⟨hcap, Nat.le_refl _⟩

/-- C13 at concrete inputs: a cap of `5` on a console of `24` rows gives `5`,
on a console of `8` rows gives `2`, and on a console of `3` rows gives `5`. -/
theorem resolveMaxRows_within_cap_example :
    (1 ≤ resolveMaxRows 24 { maxProcs := 5 } ∧ resolveMaxRows 24 { maxProcs := 5 } ≤ 5) ∧
    resolveMaxRows 24 { maxProcs := 5 } = 5 ∧
    resolveMaxRows 8 { maxProcs := 5 } = 2 ∧
    resolveMaxRows 3 { maxProcs := 5 } = 5 :=
  ⟨resolveMaxRows_within_cap 24 { maxProcs := 5 } (by decide), by decide, by decide, by decide⟩

/-- C14, the table fits the viewport: with `r'` the viewport height, `24` when
it is reported as `0`, whenever `r' > 6` the value `v` returned by
`resolveMaxRows` satisfies `v ≥ 1` and `v + 6 ≤ r'`, for every user cap. -/
theorem resolveMaxRows_fits (consoleRows : Nat) (opts : Options)
    (hbig : (if consoleRows = 0 then 24 else consoleRows) > 6) :
    1 ≤ resolveMaxRows consoleRows opts ∧
    resolveMaxRows consoleRows opts + 6 ≤ (if consoleRows = 0 then 24 else consoleRows) := by
  unfold resolveMaxRows
  simp only []
  generalize (if consoleRows = 0 then 24 else consoleRows) = rows at hbig ⊢
  have hres : rows > 3 + 2 + 1 := hbig
  have hvis : rows - (3 + 2 + 1) > 0 := by omega
  simp only [hres, if_true, hvis]
  split
  · next hcap =>
    have hmin : min (rows - (3 + 2 + 1)) opts.maxProcs ≤ rows - (3 + 2 + 1) :=
      Nat.min_le_left _ _
    have hone : 1 ≤ min (rows - (3 + 2 + 1)) opts.maxProcs := Nat.le_min.2 ⟨hvis, hcap⟩
    omega
  · omega

/-- C14 at concrete inputs: an unknown console height (fallback `24`) with a
cap of `100` gives `18` rows, and a console of `7` rows gives `1` row. -/
theorem resolveMaxRows_fits_example :
    (1 ≤ resolveMaxRows 0 { maxProcs := 100 } ∧ resolveMaxRows 0 { maxProcs := 100 } + 6 ≤ 24) ∧
    resolveMaxRows 0 { maxProcs := 100 } = 18 ∧
    resolveMaxRows 7 {} = 1 :=
  ⟨resolveMaxRows_fits 0 { maxProcs := 100 } (by decide), by decide, by decide⟩

/-! ### Range of the computed percentage -/

theorem roundDouble_nonneg (x : ℚ) (hx : 0 ≤ x) : 0 ≤ roundDouble x := by
  rcases eq_or_lt_of_le hx with h0 | hpos
  · rw [← h0, roundDouble_zero]
  · obtain ⟨m, e, hval, _⟩ := roundDouble_nearest x hpos
    rw [hval]
    positivity

/-- Rounding does not cross a natural number below `2 ^ 53`: such a number is
itself a double. -/
theorem roundDouble_le_natCast (x : ℚ) (N : Nat) (hx : 0 < x) (hN : N < 2 ^ 53)
    (hle : x ≤ (N : ℚ)) : roundDouble x ≤ (N : ℚ) := by
  obtain ⟨m, e, hval, _, _, hlo, _, herr, _⟩ := roundDouble_nearest x hx
  have hNq : (N : ℚ) < 2 ^ 53 := by exact_mod_cast hN
  have he : e ≤ 0 := by
    by_contra hcon
    have h1 : (1 : Int) ≤ e := by omega
    have h2 : (2 : ℚ) ^ (1 : Int) ≤ (2 : ℚ) ^ e := zpow_le_zpow_right₀ (by norm_num) h1
    have h3 : (2 : ℚ) ^ (1 : Int) = 2 := by norm_num
    rw [h3] at h2
    have h4 : (2 : ℚ) ^ 52 * 2 ≤ (2 : ℚ) ^ 52 * (2 : ℚ) ^ e :=
      mul_le_mul_of_nonneg_left h2 (by positivity)
    have h5 : (2 : ℚ) ^ 52 * 2 = 2 ^ 53 := by norm_num
    linarith
  obtain ⟨E, hE⟩ : ∃ E : Nat, e = -(E : Int) := ⟨(-e).toNat, by omega⟩
  subst hE
  have hz : (2 : ℚ) ^ (-(E : Int)) = ((2 : ℚ) ^ E)⁻¹ := by rw [zpow_neg, zpow_natCast]
  rw [hz] at hval herr
  have hpow : (0 : ℚ) < (2 : ℚ) ^ E := by positivity
  rw [hval] at herr ⊢
  have hup : (m : ℚ) * ((2 : ℚ) ^ E)⁻¹ - x ≤ ((2 : ℚ) ^ E)⁻¹ / 2 := (abs_le.1 herr).2
  have hmul : (2 : ℚ) * m ≤ 2 * (N * 2 ^ E) + 1 := by
    have h1 : (m : ℚ) * ((2 : ℚ) ^ E)⁻¹ ≤ (N : ℚ) + ((2 : ℚ) ^ E)⁻¹ / 2 := by linarith
    have h2 := mul_le_mul_of_nonneg_right h1 (le_of_lt hpow)
    have h3 : (m : ℚ) * ((2 : ℚ) ^ E)⁻¹ * (2 : ℚ) ^ E = m := by field_simp
    have h4 : ((N : ℚ) + ((2 : ℚ) ^ E)⁻¹ / 2) * (2 : ℚ) ^ E = N * 2 ^ E + 1 / 2 := by
      field_simp
      ring
    rw [h3, h4] at h2
    linarith
  have hnat : 2 * m ≤ 2 * (N * 2 ^ E) + 1 := by exact_mod_cast hmul
  have hm : m ≤ N * 2 ^ E := by omega
  have hmq : (m : ℚ) ≤ (N : ℚ) * 2 ^ E := by exact_mod_cast hm
  calc (m : ℚ) * ((2 : ℚ) ^ E)⁻¹ ≤ (N : ℚ) * 2 ^ E * ((2 : ℚ) ^ E)⁻¹ :=
        mul_le_mul_of_nonneg_right hmq (le_of_lt (inv_pos.2 hpow))
    _ = (N : ℚ) := by field_simp

theorem computeCpu_nonneg (self : ProcessSampler) (systemTime pid procTime : Nat) :
    0 ≤ (computeCpu self systemTime pid procTime).cpu := by
  have hq : ∀ a b : Nat, 0 ≤ fdiv (fmul 100 (u64ToDouble a)) (u64ToDouble b) := by
    intro a b
    unfold fdiv fmul u64ToDouble
    have ha : 0 ≤ roundDouble (a : ℚ) := roundDouble_nonneg _ (Nat.cast_nonneg a)
    have hb : 0 ≤ roundDouble (b : ℚ) := roundDouble_nonneg _ (Nat.cast_nonneg b)
    exact roundDouble_nonneg _
      (div_nonneg (roundDouble_nonneg _ (mul_nonneg (by norm_num) ha)) hb)
  unfold computeCpu
  split
  · split
    · split
      · simp only []
        split
        · exact hq _ _
        · exact le_refl _
      · exact le_refl _
    · exact le_refl _
  · exact le_refl _

theorem fdiv_fmul_le_100 (a b : Nat) (hb : 0 < b) (hab : a ≤ b) (ha : 100 * a < 2 ^ 53)
    (hb53 : b < 2 ^ 53) : fdiv (fmul 100 (u64ToDouble a)) (u64ToDouble b) ≤ 100 := by
  rw [fdiv_fmul_exact a b ha hb53]
  have hbq : (0 : ℚ) < (b : ℚ) := by exact_mod_cast hb
  by_cases ha0 : a = 0
  · subst ha0
    simp [roundDouble_zero]
  · have hpos : (0 : ℚ) < ((100 * a : Nat) : ℚ) / (b : ℚ) := by
      apply div_pos _ hbq
      exact_mod_cast Nat.mul_pos (by norm_num) (Nat.pos_of_ne_zero ha0)
    have hle : ((100 * a : Nat) : ℚ) / (b : ℚ) ≤ ((100 : Nat) : ℚ) := by
      rw [div_le_iff₀ hbq]
      exact_mod_cast Nat.mul_le_mul_left 100 hab
    have h := roundDouble_le_natCast _ 100 hpos (by norm_num) hle
    exact_mod_cast h

/-- Above `100`: when the process delta exceeds the system delta, the rounded
quotient stays above `100`, because the exact quotient lies at least `100 / b`
above `100`, more than half a unit in the last place of `100`. -/
theorem fdiv_fmul_gt_100 (a b : Nat) (hb : 0 < b) (hab : b < a) (ha : 100 * a < 2 ^ 53) :
    100 < fdiv (fmul 100 (u64ToDouble a)) (u64ToDouble b) := by
  have hb53 : b < 2 ^ 53 := by omega
  rw [fdiv_fmul_exact a b ha hb53]
  have hbq : (0 : ℚ) < (b : ℚ) := by exact_mod_cast hb
  have hnum : (100 : ℚ) * b + 100 ≤ ((100 * a : Nat) : ℚ) := by
    have h : 100 * b + 100 ≤ 100 * a := by omega
    exact_mod_cast h
  have hb100 : (100 : ℚ) * b < 2 ^ 53 := by
    have h : 100 * b < 2 ^ 53 := by omega
    exact_mod_cast h
  have hyb : ((100 * a : Nat) : ℚ) / (b : ℚ) * b = ((100 * a : Nat) : ℚ) := by
    field_simp
  have hypos : (0 : ℚ) < ((100 * a : Nat) : ℚ) / (b : ℚ) := by
    apply div_pos _ hbq
    linarith
  generalize ((100 * a : Nat) : ℚ) / (b : ℚ) = y at hyb hypos ⊢
  obtain ⟨m, e, hval, hm52, _, _, _, herr, _⟩ := roundDouble_nearest y hypos
  by_contra hcon
  rw [not_lt, hval] at hcon
  rw [hval] at herr
  have ht : (0 : ℚ) < (2 : ℚ) ^ e := by positivity
  generalize (2 : ℚ) ^ e = t at hcon herr ht
  have hm : (2 : ℚ) ^ 52 ≤ (m : ℚ) := by exact_mod_cast hm52
  have h1 : (2 : ℚ) ^ 52 * t ≤ 100 :=
    le_trans (mul_le_mul_of_nonneg_right hm (le_of_lt ht)) hcon
  have h2 : y ≤ 100 + t / 2 := by
    have := (abs_le.1 herr).1
    linarith
  have h3 : (200 : ℚ) ≤ t * b := by
    have h := mul_le_mul_of_nonneg_right h2 (le_of_lt hbq)
    rw [hyb] at h
    have h4 : (100 + t / 2) * (b : ℚ) = 100 * b + t * b / 2 := by ring
    rw [h4] at h
    linarith
  have h5 : (2 : ℚ) ^ 52 * t * b ≤ 100 * b := mul_le_mul_of_nonneg_right h1 (le_of_lt hbq)
  have h6 : (2 : ℚ) ^ 52 * t * b = 2 ^ 52 * (t * b) := by ring
  have h7 : (2 : ℚ) ^ 52 * 200 ≤ 2 ^ 52 * (t * b) :=
    mul_le_mul_of_nonneg_left h3 (by positivity)
  have h8 : (2 : ℚ) ^ 53 < 2 ^ 52 * 200 := by norm_num
  linarith

/-- C15, the claim as stated fails: from the injected state (system ticks
`1000`, pid `7` at `100` ticks) a reading of system ticks `1100` with pid `7`
at `400` ticks yields `cpuPercent = 300`, above `100`. -/
theorem cpuPercent_exceeds_100 :
    (sample injectedSampler (readingOf 1100 [entryWithTicks 7 400])).1.map
      (fun row => (row.pid, row.cpuPercent)) = [(7, 300)] ∧
    ¬ ((300 : ℚ) ≤ 100) := by
  decide!

/-- The bounds of the amended C15 matter: with deltas of `2 ^ 60 + 1` process
ticks and `2 ^ 60` system ticks the conversions to `double` round, and the
computed `cpuPercent` is exactly `100` although the process delta exceeds the
system delta. -/
theorem cpuPercent_rounds_to_100 :
    (sample injectedSampler
        (readingOf (1000 + 2 ^ 60) [entryWithTicks 7 (100 + 2 ^ 60 + 1)])).1.map
      (fun row => (row.pid, row.cpuPercent)) = [(7, 100)] := by
  decide!

/-- C15 (amended), range of `cpuPercent`, for every sampler state and every
reading: (1) every row returned by `sample` has `0 ≤ cpuPercent`; (2) a row
whose pid has no previous entry has `cpuPercent ≤ 100`; (3) when the snapshot
succeeded, the row of an enumerated process whose ticks did not advance from
its previous entry `prev` by more than the system ticks advanced is returned
and has `cpuPercent ≤ 100`, when `100` times the process delta and the system
delta are below `2 ^ 53`; (4) when the snapshot succeeded and the baseline is
valid (previous system time non-zero and below the new one), the row of an
enumerated process whose ticks advanced from its previous entry `prev` by more
than the system ticks advanced is returned and has `cpuPercent > 100`, when
`100` times the process delta is below `2 ^ 53`; (5) without a valid baseline
(previous system time zero, or new system time not above it) every returned
row has `cpuPercent ≤ 100`.  The deltas are differences of natural numbers,
`0` when the value went back. -/
theorem cpuPercent_range (self : ProcessSampler) (os : OsReading) :
    (∀ row ∈ (sample self os).1, 0 ≤ row.cpuPercent) ∧
    (∀ row ∈ (sample self os).1, self.prevProcTimes_ row.pid = none → row.cpuPercent ≤ 100) ∧
    (∀ entries : List ProcessEntry, os.snapshot = some entries →
      ∀ e ∈ entries, ∀ prev : Nat, self.prevProcTimes_ e.th32ProcessID = some prev →
      procTimeOf e.query - prev ≤ readSystemTime os.systemTimes - self.prevSystemTime_ →
      100 * (procTimeOf e.query - prev) < 2 ^ 53 →
      readSystemTime os.systemTimes - self.prevSystemTime_ < 2 ^ 53 →
      buildRow self (readSystemTime os.systemTimes) e ∈ (sample self os).1 ∧
      (buildRow self (readSystemTime os.systemTimes) e).cpuPercent ≤ 100) ∧
    (∀ entries : List ProcessEntry, os.snapshot = some entries →
      ∀ e ∈ entries, ∀ prev : Nat, self.prevProcTimes_ e.th32ProcessID = some prev →
      self.prevSystemTime_ ≠ 0 →
      self.prevSystemTime_ < readSystemTime os.systemTimes →
      readSystemTime os.systemTimes - self.prevSystemTime_ < procTimeOf e.query - prev →
      100 * (procTimeOf e.query - prev) < 2 ^ 53 →
      buildRow self (readSystemTime os.systemTimes) e ∈ (sample self os).1 ∧
      100 < (buildRow self (readSystemTime os.systemTimes) e).cpuPercent) ∧
    (∀ row ∈ (sample self os).1,
      self.prevSystemTime_ = 0 ∨ readSystemTime os.systemTimes ≤ self.prevSystemTime_ →
      row.cpuPercent ≤ 100) := by
  refine ⟨?_, ?_, ?_, ?_, ?_⟩
  · intro row hrow
    obtain ⟨_, _, e, _, rfl⟩ := (mem_sample_iff self os row).1 hrow
    rw [buildRow_cpuPercent]
    exact computeCpu_nonneg _ _ _ _
  · intro row hrow hnone
    rw [new_pid_zero_aux self os row hrow hnone]
    norm_num
  · intro entries hsnap e he prev hprev hdelta h100 h53
    refine ⟨(mem_sample_iff self os _).2 ⟨entries, hsnap, e, he, rfl⟩, ?_⟩
    rw [buildRow_cpuPercent]
    by_cases hbase : self.prevSystemTime_ ≠ 0 ∧
        self.prevSystemTime_ < readSystemTime os.systemTimes
    · by_cases hge : prev ≤ procTimeOf e.query
      · rw [computeCpu_delta self _ _ _ prev hbase.1 hbase.2 (readSystemTime_lt _) hprev hge
          (procTimeOf_lt _)]
        exact fdiv_fmul_le_100 _ _ (by omega) hdelta h100 h53
      · rw [computeCpu_regressed _ _ _ _ prev hprev (by omega)]
        norm_num
    · rw [computeCpu_no_baseline]
      · norm_num
      · by_cases h0 : self.prevSystemTime_ = 0
        · exact Or.inl h0
        · exact Or.inr (by
            have : ¬ self.prevSystemTime_ < readSystemTime os.systemTimes :=
              fun h => hbase ⟨h0, h⟩
            omega)
  · intro entries hsnap e he prev hprev hS0 hS hdelta h100
    refine ⟨(mem_sample_iff self os _).2 ⟨entries, hsnap, e, he, rfl⟩, ?_⟩
    rw [buildRow_cpuPercent,
      computeCpu_delta self _ _ _ prev hS0 hS (readSystemTime_lt _) hprev (by omega)
        (procTimeOf_lt _)]
    exact fdiv_fmul_gt_100 _ _ (by omega) hdelta h100
  · intro row hrow hbase
    obtain ⟨_, _, e, _, rfl⟩ := (mem_sample_iff self os row).1 hrow
    rw [buildRow_cpuPercent, computeCpu_no_baseline _ _ _ _ hbase]
    norm_num

/-- C15 (amended) at concrete inputs: from the injected state (system ticks
`1000`, pid `7` at `100` ticks), a reading of system ticks `1100` with pid `7`
at `150` ticks returns the row of pid `7` with a `cpuPercent` between `0` and
`100`, and a reading of system ticks `1100` with pid `7` at `400` ticks returns
the row of pid `7` with a `cpuPercent` above `100`. -/
theorem cpuPercent_range_example :
    buildRow injectedSampler
        (readSystemTime (readingOf 1100 [entryWithTicks 7 150]).systemTimes)
        (entryWithTicks 7 150)
      ∈ (sample injectedSampler (readingOf 1100 [entryWithTicks 7 150])).1 ∧
    0 ≤ (buildRow injectedSampler
        (readSystemTime (readingOf 1100 [entryWithTicks 7 150]).systemTimes)
        (entryWithTicks 7 150)).cpuPercent ∧
    (buildRow injectedSampler
        (readSystemTime (readingOf 1100 [entryWithTicks 7 150]).systemTimes)
        (entryWithTicks 7 150)).cpuPercent ≤ 100 ∧
    buildRow injectedSampler
        (readSystemTime (readingOf 1100 [entryWithTicks 7 400]).systemTimes)
        (entryWithTicks 7 400)
      ∈ (sample injectedSampler (readingOf 1100 [entryWithTicks 7 400])).1 ∧
    100 < (buildRow injectedSampler
        (readSystemTime (readingOf 1100 [entryWithTicks 7 400]).systemTimes)
        (entryWithTicks 7 400)).cpuPercent := by
  have h := cpuPercent_range injectedSampler (readingOf 1100 [entryWithTicks 7 150])
  have hS : readSystemTime (readingOf 1100 [entryWithTicks 7 150]).systemTimes = 1100 :=
    readSystemTime_readingOf 1100 _ (by norm_num)
  have hp : procTimeOf (entryWithTicks 7 150).query = 150 :=
    procTimeOf_entryWithTicks 7 150 (by norm_num)
  have h3 := h.2.2.1 [entryWithTicks 7 150] rfl (entryWithTicks 7 150)
    (List.mem_singleton.2 rfl) 100 rfl
    (by rw [hS, hp]; decide) (by rw [hp]; decide) (by rw [hS]; decide)
  have h2 := cpuPercent_range injectedSampler (readingOf 1100 [entryWithTicks 7 400])
  have hS2 : readSystemTime (readingOf 1100 [entryWithTicks 7 400]).systemTimes = 1100 :=
    readSystemTime_readingOf 1100 _ (by norm_num)
  have hp2 : procTimeOf (entryWithTicks 7 400).query = 400 :=
    procTimeOf_entryWithTicks 7 400 (by norm_num)
  have h4 := h2.2.2.2.1 [entryWithTicks 7 400] rfl (entryWithTicks 7 400)
    (List.mem_singleton.2 rfl) 100 rfl
    (by decide) (by rw [hS2]; decide) (by rw [hS2, hp2]; decide) (by rw [hp2]; decide)
  exact ⟨h3.1, h.1 _ h3.1, h3.2, h4.1, h4.2⟩

/-! ### The argument parser -/

theorem parseLoop_nil (stod : String → Option DoubleValue) (stoul : String → Option Nat)
    (i : Nat) (opts : Options) (secondsProvided : Bool) :
    parseLoop stod stoul [] i opts secondsProvided
      = { opts := if secondsProvided then { opts with topMode := true } else opts
          showHelp := false, badArgs := false, stoppedAt := none } := by
  rw [parseLoop]

theorem parseLoop_cons (stod : String → Option DoubleValue) (stoul : String → Option Nat)
    (arg : String) (rest : List String) (i : Nat) (opts : Options) (secondsProvided : Bool) :
    parseLoop stod stoul (arg :: rest) i opts secondsProvided =
    if arg = "-h" ∨ arg = "-?" ∨ arg = "--help" then
      { opts := opts, showHelp := true, badArgs := false, stoppedAt := some i }
    else if arg = "-t" ∨ arg = "--top" then
      parseLoop stod stoul rest (i + 1) { opts with topMode := true } secondsProvided
    else if startsWith arg "--top=" then
      if lowerCase (substrFrom arg "--top=".length) = "1"
          ∨ lowerCase (substrFrom arg "--top=".length) = "true"
          ∨ lowerCase (substrFrom arg "--top=".length) = "yes"
          ∨ lowerCase (substrFrom arg "--top=".length) = "on" then
        parseLoop stod stoul rest (i + 1) { opts with topMode := true } secondsProvided
      else if lowerCase (substrFrom arg "--top=".length) = "0"
          ∨ lowerCase (substrFrom arg "--top=".length) = "false"
          ∨ lowerCase (substrFrom arg "--top=".length) = "no"
          ∨ lowerCase (substrFrom arg "--top=".length) = "off" then
        parseLoop stod stoul rest (i + 1) { opts with topMode := false } secondsProvided
      else { opts := opts, showHelp := false, badArgs := true, stoppedAt := some i }
    else if arg = "-s" ∨ arg = "--seconds" then
      match rest with
      | [] => { opts := opts, showHelp := false, badArgs := true, stoppedAt := some i }
      | value :: rest' =>
        match parseSeconds stod value with
        | none => { opts := opts, showHelp := false, badArgs := true, stoppedAt := some (i + 1) }
        | some seconds =>
          parseLoop stod stoul rest' (i + 2) { opts with intervalSeconds := seconds } true
    else if arg = "-k" ∨ arg = "--kill" then
      match rest with
      | [] => { opts := opts, showHelp := false, badArgs := true, stoppedAt := some i }
      | value :: rest' =>
        match parsePid stoul value with
        | none => { opts := opts, showHelp := false, badArgs := true, stoppedAt := some (i + 1) }
        | some pid =>
          parseLoop stod stoul rest' (i + 2) { opts with killPid := some pid } secondsProvided
    else if arg = "-n" ∨ arg = "--numprocs" then
      match rest with
      | [] => { opts := opts, showHelp := false, badArgs := true, stoppedAt := some i }
      | value :: rest' =>
        match parseCount stoul value with
        | none => { opts := opts, showHelp := false, badArgs := true, stoppedAt := some (i + 1) }
        | some count =>
          parseLoop stod stoul rest' (i + 2) { opts with maxProcs := count } secondsProvided
    else if startsWith arg "--numprocs=" then
      match parseCount stoul (substrFrom arg "--numprocs=".length) with
      | none => { opts := opts, showHelp := false, badArgs := true, stoppedAt := some i }
      | some count =>
        parseLoop stod stoul rest (i + 1) { opts with maxProcs := count } secondsProvided
    else { opts := opts, showHelp := false, badArgs := true, stoppedAt := some i } := by
  rw [parseLoop.eq_def]

theorem parseLoop_stoppedAt_ge (stod : String → Option DoubleValue) (stoul : String → Option Nat)
    (args : List String) (i : Nat) (opts : Options) (secondsProvided : Bool) (k : Nat)
    (h : (parseLoop stod stoul args i opts secondsProvided).stoppedAt = some k) : i ≤ k := by
  induction args, i, opts, secondsProvided using parseLoop.induct stod stoul
  case case1 => simp [parseLoop_nil] at h
  all_goals rw [parseLoop_cons] at h
  all_goals simp_all
  all_goals omega

theorem parseLoop_interval_of_no_flag (stod : String → Option DoubleValue)
    (stoul : String → Option Nat) (args : List String) (i : Nat) (opts : Options)
    (secondsProvided : Bool) (hno : ∀ a ∈ args, ¬ (a = "-s" ∨ a = "--seconds")) :
    (parseLoop stod stoul args i opts secondsProvided).opts.intervalSeconds
      = opts.intervalSeconds := by
  induction args, i, opts, secondsProvided using parseLoop.induct stod stoul
  case case1 => rw [parseLoop_nil]; split <;> rfl
  all_goals rw [parseLoop_cons]
  all_goals simp_all

/-- The loop body seen through `takesValue`, `stepValue` and `stepSingle`. -/
theorem parseLoop_view (stod : String → Option DoubleValue) (stoul : String → Option Nat)
    (arg : String) (rest : List String) (i : Nat) (opts : Options) (secondsProvided : Bool) :
    parseLoop stod stoul (arg :: rest) i opts secondsProvided =
    if takesValue arg then
      match rest with
      | [] => { opts := opts, showHelp := false, badArgs := true, stoppedAt := some i }
      | value :: rest' =>
        match stepValue stod stoul arg value opts secondsProvided with
        | none => { opts := opts, showHelp := false, badArgs := true, stoppedAt := some (i + 1) }
        | some (opts', secondsProvided') => parseLoop stod stoul rest' (i + 2) opts' secondsProvided'
    else
      match stepSingle stoul arg opts with
      | SingleStep.stop showHelp badArgs =>
        { opts := opts, showHelp := showHelp, badArgs := badArgs, stoppedAt := some i }
      | SingleStep.next opts' => parseLoop stod stoul rest (i + 1) opts' secondsProvided := by
  rw [parseLoop_cons]
  unfold takesValue stepSingle stepValue
  by_cases h1 : arg = "-h" ∨ arg = "-?" ∨ arg = "--help"
  · simp [h1]
  by_cases h2 : arg = "-t" ∨ arg = "--top"
  · simp [h1, h2]
  by_cases h3 : startsWith arg "--top=" = true
  · simp only [h1, h2, h3, if_true, if_false]
    split <;> [skip; split] <;> simp
  have h3' : startsWith arg "--top=" = false := by simpa using h3
  by_cases h4 : arg = "-s" ∨ arg = "--seconds"
  · simp only [h1, h2, h3, h3', h4, if_true, if_false]
    cases rest with
    | nil => simp
    | cons value rest' => cases hps : parseSeconds stod value <;> simp [hps]
  by_cases h5 : arg = "-k" ∨ arg = "--kill"
  · simp only [h1, h2, h3, h3', h4, h5, if_true, if_false]
    cases rest with
    | nil => simp
    | cons value rest' => cases hps : parsePid stoul value <;> simp [hps]
  by_cases h6 : arg = "-n" ∨ arg = "--numprocs"
  · simp only [h1, h2, h3, h3', h4, h5, h6, if_true, if_false]
    cases rest with
    | nil => simp
    | cons value rest' => cases hps : parseCount stoul value <;> simp [hps]
  simp only [h1, h2, h3, h3', h4, h5, h6, if_true, if_false]
  by_cases h7 : startsWith arg "--numprocs=" = true
  · simp only [h7, if_true]
    cases hps : parseCount stoul (substrFrom arg "--numprocs=".length) <;> simp [hps]
  · simp [h7]

theorem parseLoop_flags (stod : String → Option DoubleValue) (stoul : String → Option Nat)
    (args : List String) (i : Nat) (opts : Options) (secondsProvided : Bool) :
    ((parseLoop stod stoul args i opts secondsProvided).stoppedAt = none ∧
      (parseLoop stod stoul args i opts secondsProvided).showHelp = false ∧
      (parseLoop stod stoul args i opts secondsProvided).badArgs = false) ∨
    ((parseLoop stod stoul args i opts secondsProvided).stoppedAt ≠ none ∧
      (parseLoop stod stoul args i opts secondsProvided).showHelp
        ≠ (parseLoop stod stoul args i opts secondsProvided).badArgs) := by
  induction args, i, opts, secondsProvided using parseLoop.induct stod stoul
  case case1 => rw [parseLoop_nil]; simp
  all_goals rw [parseLoop_cons]
  all_goals simp_all

theorem stepSingle_stop (stoul : String → Option Nat) (arg : String) (opts : Options)
    (showHelp badArgs : Bool) (h : stepSingle stoul arg opts = SingleStep.stop showHelp badArgs) :
    showHelp ≠ badArgs := by
  unfold stepSingle at h
  split at h
  · cases h; decide
  · split at h
    · cases h
    · split at h
      · split at h
        · cases h
        · split at h
          · cases h
          · cases h; decide
      · split at h
        · split at h
          · cases h; decide
          · cases h
        · cases h; decide

theorem seconds_flag_takesValue (a : String) (h : a = "-s" ∨ a = "--seconds") :
    takesValue a = true := by
  rcases h with rfl | rfl <;> decide

theorem stepValue_seconds (stod : String → Option DoubleValue) (stoul : String → Option Nat)
    (arg value : String) (opts : Options) (secondsProvided : Bool)
    (h : arg = "-s" ∨ arg = "--seconds") :
    stepValue stod stoul arg value opts secondsProvided
      = (parseSeconds stod value).map
          (fun seconds => ({ opts with intervalSeconds := seconds }, true)) := by
  unfold stepValue
  rw [if_pos h]

theorem stepValue_keeps_seconds (stod : String → Option DoubleValue)
    (stoul : String → Option Nat) (arg value : String) (opts opts' : Options)
    (secondsProvided secondsProvided' : Bool)
    (h : stepValue stod stoul arg value opts secondsProvided = some (opts', secondsProvided'))
    (hsec : secondsProvided = true) : secondsProvided' = true := by
  unfold stepValue at h
  split at h
  · cases hp : parseSeconds stod value with
    | none => rw [hp] at h; cases h
    | some x => rw [hp] at h; cases h; rfl
  · split at h
    · cases hp : parsePid stoul value with
      | none => rw [hp] at h; cases h
      | some x => rw [hp] at h; cases h; exact hsec
    · cases hp : parseCount stoul value with
      | none => rw [hp] at h; cases h
      | some x => rw [hp] at h; cases h; exact hsec

theorem stepValue_of_flag_value (stod : String → Option DoubleValue)
    (stoul : String → Option Nat) (hrej : RejectsSecondsFlag stod stoul)
    (arg value : String) (opts : Options) (secondsProvided : Bool)
    (hv : value = "-s" ∨ value = "--seconds") :
    stepValue stod stoul arg value opts secondsProvided = none := by
  obtain ⟨h1, h2, h3, h4⟩ := hrej
  unfold stepValue
  rcases hv with hv | hv <;> subst hv <;> split <;> [skip; split; skip; split] <;>
    simp [parseSeconds, parsePid, parseCount, *]

theorem parseLoop_topMode_of_seconds (stod : String → Option DoubleValue)
    (stoul : String → Option Nat)
    (args : List String) (i : Nat) (opts : Options) (secondsProvided : Bool)
    (hhelp : (parseLoop stod stoul args i opts secondsProvided).showHelp = false)
    (hbad : (parseLoop stod stoul args i opts secondsProvided).badArgs = false)
    (hsec : secondsProvided = true) :
    (parseLoop stod stoul args i opts secondsProvided).opts.topMode = true := by
  generalize hn : args.length = n
  induction n using Nat.strong_induction_on generalizing args i opts secondsProvided with
  | _ n ih =>
    cases args with
    | nil => rw [parseLoop_nil]; simp [hsec]
    | cons arg rest =>
      rw [parseLoop_view] at hhelp hbad ⊢
      simp only [List.length_cons] at hn
      by_cases htv : takesValue arg = true
      · simp only [htv, if_true] at hhelp hbad ⊢
        cases rest with
        | nil => simp at hbad
        | cons value rest' =>
          simp only [List.length_cons] at hn
          cases hsv : stepValue stod stoul arg value opts secondsProvided with
          | none => simp [hsv] at hbad
          | some p =>
            obtain ⟨opts', sp'⟩ := p
            simp only [hsv] at hhelp hbad ⊢
            exact ih rest'.length (by omega) rest' _ _ _ hhelp hbad
              (stepValue_keeps_seconds _ _ _ _ _ _ _ _ hsv hsec) rfl
      · simp only [htv] at hhelp hbad ⊢
        cases hss : stepSingle stoul arg opts with
        | stop h b =>
          simp only [hss] at hhelp hbad
          exact absurd (hhelp.trans hbad.symm) (stepSingle_stop _ _ _ _ _ hss)
        | next opts' =>
          simp only [hss] at hhelp hbad ⊢
          exact ih rest.length (by omega) rest _ _ _ hhelp hbad hsec rfl

theorem parseLoop_topMode_of_flag (stod : String → Option DoubleValue)
    (stoul : String → Option Nat) (hrej : RejectsSecondsFlag stod stoul)
    (args : List String) (i : Nat) (opts : Options) (secondsProvided : Bool)
    (hhelp : (parseLoop stod stoul args i opts secondsProvided).showHelp = false)
    (hbad : (parseLoop stod stoul args i opts secondsProvided).badArgs = false)
    (hmem : ∃ a ∈ args, a = "-s" ∨ a = "--seconds") :
    (parseLoop stod stoul args i opts secondsProvided).opts.topMode = true := by
  generalize hn : args.length = n
  induction n using Nat.strong_induction_on generalizing args i opts secondsProvided with
  | _ n ih =>
    cases args with
    | nil =>
      obtain ⟨a, ha, _⟩ := hmem
      exact absurd ha (List.not_mem_nil a)
    | cons arg rest =>
      rw [parseLoop_view] at hhelp hbad ⊢
      simp only [List.length_cons] at hn
      by_cases htv : takesValue arg = true
      · simp only [htv, if_true] at hhelp hbad ⊢
        cases rest with
        | nil => simp at hbad
        | cons value rest' =>
          simp only [List.length_cons] at hn
          cases hsv : stepValue stod stoul arg value opts secondsProvided with
          | none => simp [hsv] at hbad
          | some p =>
            obtain ⟨opts', sp'⟩ := p
            simp only [hsv] at hhelp hbad ⊢
            by_cases hflag : arg = "-s" ∨ arg = "--seconds"
            · rw [stepValue_seconds stod stoul arg value opts secondsProvided hflag] at hsv
              cases hp : parseSeconds stod value with
              | none => rw [hp] at hsv; cases hsv
              | some x =>
                rw [hp] at hsv
                cases hsv
                exact parseLoop_topMode_of_seconds stod stoul rest' _ _ _ hhelp hbad rfl
            · have hvalue : ¬ (value = "-s" ∨ value = "--seconds") := by
                intro hv
                rw [stepValue_of_flag_value stod stoul hrej arg value opts secondsProvided hv]
                  at hsv
                cases hsv
              have hrest : ∃ a ∈ rest', a = "-s" ∨ a = "--seconds" := by
                obtain ⟨a, ha, hfa⟩ := hmem
                rcases List.mem_cons.1 ha with h | h
                · exact absurd (h ▸ hfa) hflag
                · rcases List.mem_cons.1 h with h' | h'
                  · exact absurd (h' ▸ hfa) hvalue
                  · exact ⟨a, h', hfa⟩
              exact ih rest'.length (by omega) rest' _ _ _ hhelp hbad hrest rfl
      · simp only [htv] at hhelp hbad ⊢
        have hflag : ¬ (arg = "-s" ∨ arg = "--seconds") :=
          fun h => htv (seconds_flag_takesValue arg h)
        have hrest : ∃ a ∈ rest, a = "-s" ∨ a = "--seconds" := by
          obtain ⟨a, ha, hfa⟩ := hmem
          rcases List.mem_cons.1 ha with h | h
          · exact absurd (h ▸ hfa) hflag
          · exact ⟨a, h, hfa⟩
        cases hss : stepSingle stoul arg opts with
        | stop h b =>
          simp only [hss] at hhelp hbad
          exact absurd (hhelp.trans hbad.symm) (stepSingle_stop _ _ _ _ _ hss)
        | next opts' =>
          simp only [hss] at hhelp hbad ⊢
          exact ih rest.length (by omega) rest _ _ _ hhelp hbad hrest rfl

theorem parseSeconds_eq_some (stod : String → Option DoubleValue) (value : String)
    (x : DoubleValue) (h : parseSeconds stod value = some x) :
    stod value = some x ∧ x.isPositive = true := by
  unfold parseSeconds at h
  cases hs : stod value with
  | none => rw [hs] at h; cases h
  | some out =>
    rw [hs] at h
    simp only at h
    split at h
    · next hpos => cases h; exact ⟨rfl, hpos⟩
    · cases h

theorem parseLoop_interval_of_last (stod : String → Option DoubleValue)
    (stoul : String → Option Nat) (hrej : RejectsSecondsFlag stod stoul)
    (args : List String) (i : Nat) (opts : Options) (secondsProvided : Bool)
    (hhelp : (parseLoop stod stoul args i opts secondsProvided).showHelp = false)
    (hbad : (parseLoop stod stoul args i opts secondsProvided).badArgs = false)
    (pre : List String) (flag value : String) (post : List String)
    (hargs : args = pre ++ flag :: value :: post)
    (hflag : flag = "-s" ∨ flag = "--seconds")
    (hpost : ∀ a ∈ post, ¬ (a = "-s" ∨ a = "--seconds")) :
    stod value = some (parseLoop stod stoul args i opts secondsProvided).opts.intervalSeconds ∧
    (parseLoop stod stoul args i opts secondsProvided).opts.intervalSeconds.isPositive
      = true := by
  generalize hn : pre.length = n
  induction n using Nat.strong_induction_on generalizing args pre i opts secondsProvided with
  | _ n ih =>
    subst hargs
    cases pre with
    | nil =>
      rw [List.nil_append, parseLoop_view] at hhelp hbad ⊢
      have htv := seconds_flag_takesValue flag hflag
      simp only [htv, if_true] at hhelp hbad ⊢
      rw [stepValue_seconds stod stoul flag value opts secondsProvided hflag] at hhelp hbad ⊢
      cases hp : parseSeconds stod value with
      | none => simp [hp] at hbad
      | some x =>
        simp only [hp, Option.map_some'] at hhelp hbad ⊢
        rw [parseLoop_interval_of_no_flag stod stoul post _ _ _ hpost]
        exact parseSeconds_eq_some stod value x hp
    | cons arg pre' =>
      rw [List.cons_append, parseLoop_view] at hhelp hbad ⊢
      simp only [List.length_cons] at hn
      by_cases htv : takesValue arg = true
      · simp only [htv, if_true] at hhelp hbad ⊢
        cases pre' with
        | nil =>
          rw [List.nil_append] at hhelp hbad ⊢
          simp only [stepValue_of_flag_value stod stoul hrej arg flag opts secondsProvided
            hflag] at hbad
          simp at hbad
        | cons v pre'' =>
          rw [List.cons_append] at hhelp hbad ⊢
          simp only [List.length_cons] at hn
          cases hsv : stepValue stod stoul arg v opts secondsProvided with
          | none => simp [hsv] at hbad
          | some p =>
            obtain ⟨opts', sp'⟩ := p
            simp only [hsv] at hhelp hbad ⊢
            exact ih pre''.length (by omega) _ _ _ _ hhelp hbad pre'' rfl rfl
      · simp only [htv] at hhelp hbad ⊢
        cases hss : stepSingle stoul arg opts with
        | stop h b =>
          simp only [hss] at hhelp hbad
          exact absurd (hhelp.trans hbad.symm) (stepSingle_stop _ _ _ _ _ hss)
        | next opts' =>
          simp only [hss] at hhelp hbad ⊢
          exact ih pre'.length (by omega) _ _ _ _ hhelp hbad pre' rfl rfl

/-- When the loop stops at an argument that is not the last one, every list
with the same arguments up to and including that one gives the same outcome. -/
theorem parseLoop_agree (stod : String → Option DoubleValue) (stoul : String → Option Nat)
    (argsA : List String) (i : Nat) (opts : Options) (secondsProvided : Bool) (j : Nat)
    (hstop : (parseLoop stod stoul argsA i opts secondsProvided).stoppedAt = some (i + j))
    (hmore : j + 1 < argsA.length)
    (argsB : List String) (hagree : argsB.take (j + 1) = argsA.take (j + 1)) :
    parseLoop stod stoul argsB i opts secondsProvided
      = parseLoop stod stoul argsA i opts secondsProvided := by
  generalize hn : argsA.length = n
  induction n using Nat.strong_induction_on generalizing argsA argsB i opts secondsProvided j
    with
  | _ n ih =>
    cases argsA with
    | nil => simp at hmore
    | cons a restA =>
      cases argsB with
      | nil => simp at hagree
      | cons b restB =>
        simp only [List.take_succ_cons, List.cons.injEq] at hagree
        obtain ⟨hab, hrest⟩ := hagree
        subst hab
        simp only [List.length_cons] at hn hmore
        rw [parseLoop_view] at hstop
        rw [parseLoop_view stod stoul b restB, parseLoop_view stod stoul b restA]
        by_cases htv : takesValue b = true
        · simp only [htv, if_true] at hstop ⊢
          cases restA with
          | nil => simp at hmore
          | cons v restA' =>
            simp only [List.length_cons] at hn hmore
            cases hsv : stepValue stod stoul b v opts secondsProvided with
            | none =>
              simp only [hsv, Option.some.injEq] at hstop
              have hj : j = 1 := by omega
              subst hj
              cases restB with
              | nil => simp at hrest
              | cons v' restB' =>
                simp only [List.take_succ_cons, List.cons.injEq] at hrest
                rw [hrest.1]
                simp only [hsv]
            | some p =>
              obtain ⟨opts', sp'⟩ := p
              simp only [hsv] at hstop ⊢
              have hge := parseLoop_stoppedAt_ge stod stoul restA' (i + 2) opts' sp' (i + j)
                hstop
              obtain ⟨j', hj'⟩ : ∃ j', j = j' + 2 := ⟨j - 2, by omega⟩
              subst hj'
              cases restB with
              | nil => simp at hrest
              | cons v' restB' =>
                simp only [List.take_succ_cons, List.cons.injEq] at hrest
                rw [hrest.1]
                simp only [hsv]
                have hstop' : (parseLoop stod stoul restA' (i + 2) opts' sp').stoppedAt
                    = some (i + 2 + j') := by rw [hstop]; congr 1; omega
                exact ih restA'.length (by omega) restA' (i + 2) opts' sp' j' hstop'
                  (by omega) restB' hrest.2 rfl
        · simp only [htv, Bool.false_eq_true, if_false] at hstop ⊢
          cases hss : stepSingle stoul b opts with
          | stop h c => rfl
          | next opts' =>
            simp only [hss] at hstop ⊢
            have hge := parseLoop_stoppedAt_ge stod stoul restA (i + 1) opts' secondsProvided
              (i + j) hstop
            obtain ⟨j', hj'⟩ : ∃ j', j = j' + 1 := ⟨j - 1, by omega⟩
            subst hj'
            have hstop' : (parseLoop stod stoul restA (i + 1) opts' secondsProvided).stoppedAt
                = some (i + 1 + j') := by rw [hstop]; congr 1; omega
            exact ih restA.length (by omega) restA (i + 1) opts' secondsProvided j' hstop'
              (by omega) restB hrest rfl

/-- C16, `-s`/`--seconds` implies top mode: for every argument list that
`parseOptions` accepts (neither `showHelp` nor `badArgs` set) and that contains
`-s` or `--seconds`, the returned `Options` has `topMode = true`, wherever the
flag stands and whatever `--top=` values stand before or after it, and
`intervalSeconds` is the (positive) value `std::stod` reads from the argument
that follows the last `-s`/`--seconds`.  The library functions enter through
the one property that they reject the strings `-s` and `--seconds`. -/
theorem seconds_implies_top (stod : String → Option DoubleValue) (stoul : String → Option Nat)
    (hrej : RejectsSecondsFlag stod stoul) (argv : List String)
    (hhelp : (parseOptions stod stoul argv).showHelp = false)
    (hbad : (parseOptions stod stoul argv).badArgs = false)
    (hmem : "-s" ∈ argv.drop 1 ∨ "--seconds" ∈ argv.drop 1) :
    (parseOptions stod stoul argv).opts.topMode = true ∧
    ∀ (pre : List String) (flag value : String) (post : List String),
      argv.drop 1 = pre ++ flag :: value :: post →
      (flag = "-s" ∨ flag = "--seconds") →
      "-s" ∉ post → "--seconds" ∉ post →
      stod value = some (parseOptions stod stoul argv).opts.intervalSeconds ∧
      (parseOptions stod stoul argv).opts.intervalSeconds.isPositive = true := by
  unfold parseOptions at hhelp hbad ⊢
  constructor
  · apply parseLoop_topMode_of_flag stod stoul hrej _ _ _ _ hhelp hbad
    rcases hmem with h | h
    · exact ⟨"-s", h, Or.inl rfl⟩
    · exact ⟨"--seconds", h, Or.inr rfl⟩
  · intro pre flag value post hargs hflag hs1 hs2
    apply parseLoop_interval_of_last stod stoul hrej _ _ _ _ hhelp hbad pre flag value post
      hargs hflag
    intro a ha hfa
    rcases hfa with rfl | rfl
    · exact hs1 ha
    · exact hs2 ha

/-- C16 at a concrete input: `tm --top=false -s 2 -n 3 --seconds 5 --top=off`
is accepted, gives `topMode = true`, and its interval is the value read from
`5`, the argument of the last seconds flag. -/
theorem seconds_implies_top_example :
    RejectsSecondsFlag decimalStod decimalStoul ∧
    (parseOptions decimalStod decimalStoul
      ["tm", "--top=false", "-s", "2", "-n", "3", "--seconds", "5", "--top=off"]).showHelp
      = false ∧
    (parseOptions decimalStod decimalStoul
      ["tm", "--top=false", "-s", "2", "-n", "3", "--seconds", "5", "--top=off"]).badArgs
      = false ∧
    (parseOptions decimalStod decimalStoul
      ["tm", "--top=false", "-s", "2", "-n", "3", "--seconds", "5", "--top=off"]).opts.topMode
      = true ∧
    decimalStod "5" = some (parseOptions decimalStod decimalStoul
      ["tm", "--top=false", "-s", "2", "-n", "3", "--seconds", "5", "--top=off"]).opts.intervalSeconds :=
  have hrej : RejectsSecondsFlag decimalStod decimalStoul :=
    ⟨by decide, by decide, by decide, by decide⟩
  have hhelp : (parseOptions decimalStod decimalStoul
      ["tm", "--top=false", "-s", "2", "-n", "3", "--seconds", "5", "--top=off"]).showHelp
      = false := by decide!
  have hbad : (parseOptions decimalStod decimalStoul
      ["tm", "--top=false", "-s", "2", "-n", "3", "--seconds", "5", "--top=off"]).badArgs
      = false := by decide!
  have h := seconds_implies_top decimalStod decimalStoul hrej
    ["tm", "--top=false", "-s", "2", "-n", "3", "--seconds", "5", "--top=off"] hhelp hbad
    (Or.inl (by decide))
  ⟨hrej, hhelp, hbad, h.1,
    (h.2 ["--top=false", "-s", "2", "-n", "3"] "--seconds" "5" ["--top=off"] rfl (Or.inr rfl)
      (by decide) (by decide)).1⟩

/-- An argument list that is accepted when parsed alone leaves the loop in a
state from which the parsing of whatever follows it goes on. -/
theorem parseLoop_append (stod : String → Option DoubleValue) (stoul : String → Option Nat)
    (pre : List String) (i : Nat) (opts : Options) (secondsProvided : Bool)
    (hhelp : (parseLoop stod stoul pre i opts secondsProvided).showHelp = false)
    (hbad : (parseLoop stod stoul pre i opts secondsProvided).badArgs = false) :
    ∃ (acc : Options) (sp : Bool),
      ∀ rest : List String,
        parseLoop stod stoul (pre ++ rest) i opts secondsProvided
          = parseLoop stod stoul rest (i + pre.length) acc sp := by
  generalize hn : pre.length = n
  induction n using Nat.strong_induction_on generalizing pre i opts secondsProvided with
  | _ n ih =>
    cases pre with
    | nil =>
      simp only [List.length_nil] at hn
      subst hn
      exact ⟨opts, secondsProvided, fun rest => by simp⟩
    | cons a r =>
      rw [parseLoop_view] at hhelp hbad
      by_cases htv : takesValue a = true
      · simp only [htv, if_true] at hhelp hbad
        cases r with
        | nil => simp at hbad
        | cons v r' =>
          cases hsv : stepValue stod stoul a v opts secondsProvided with
          | none => simp [hsv] at hbad
          | some p =>
            obtain ⟨o, s⟩ := p
            simp only [hsv] at hhelp hbad
            simp only [List.length_cons] at hn
            obtain ⟨acc, sp, hall⟩ := ih r'.length (by omega) r' (i + 2) o s hhelp hbad rfl
            refine ⟨acc, sp, fun rest => ?_⟩
            rw [List.cons_append, List.cons_append, parseLoop_view]
            simp only [htv, if_true, hsv]
            rw [hall rest]
            congr 1
            omega
      · simp only [htv, Bool.false_eq_true, if_false] at hhelp hbad
        cases hss : stepSingle stoul a opts with
        | stop h c =>
          simp only [hss] at hhelp hbad
          exact absurd (hhelp.trans hbad.symm) (stepSingle_stop _ _ _ _ _ hss)
        | next o =>
          simp only [hss] at hhelp hbad
          simp only [List.length_cons] at hn
          obtain ⟨acc, sp, hall⟩ := ih r.length (by omega) r (i + 1) o secondsProvided
            hhelp hbad rfl
          refine ⟨acc, sp, fun rest => ?_⟩
          rw [List.cons_append, parseLoop_view]
          simp only [htv, Bool.false_eq_true, if_false, hss]
          rw [hall rest]
          congr 1
          omega

theorem startsWith_numprocs_not_top (arg : String) (h : startsWith arg "--numprocs=" = true) :
    startsWith arg "--top=" = false := by
  have e1 : "--top=".data = ['-', '-', 't', 'o', 'p', '='] := rfl
  have e2 : "--numprocs=".data = ['-', '-', 'n', 'u', 'm', 'p', 'r', 'o', 'c', 's', '='] := rfl
  unfold startsWith at h ⊢
  rw [e2] at h
  rw [e1]
  rcases arg with ⟨l⟩
  rcases l with _ | ⟨a, _ | ⟨b, _ | ⟨c, l⟩⟩⟩ <;> simp_all [List.isPrefixOf]
  obtain ⟨_, _, hc, _⟩ := h
  intro _ _ hc2
  rw [← hc] at hc2
  exact absurd hc2 (by decide)

/-- A help flag read by the loop body: `showHelp` is set, `badArgs` is not, and
the options are those accumulated so far. -/
theorem parseLoop_help_flag (stod : String → Option DoubleValue) (stoul : String → Option Nat)
    (arg : String) (rest : List String) (i : Nat) (opts : Options) (secondsProvided : Bool)
    (h : arg = "-h" ∨ arg = "-?" ∨ arg = "--help") :
    parseLoop stod stoul (arg :: rest) i opts secondsProvided
      = { opts := opts, showHelp := true, badArgs := false, stoppedAt := some i } := by
  rw [parseLoop_cons, if_pos h]

/-- An argument that matches no branch of the loop body: `badArgs` is set. -/
theorem parseLoop_unknown_flag (stod : String → Option DoubleValue)
    (stoul : String → Option Nat)
    (arg : String) (rest : List String) (i : Nat) (opts : Options) (secondsProvided : Bool)
    (h1 : ¬ (arg = "-h" ∨ arg = "-?" ∨ arg = "--help")) (h2 : ¬ (arg = "-t" ∨ arg = "--top"))
    (h3 : startsWith arg "--top=" = false) (h4 : ¬ (arg = "-s" ∨ arg = "--seconds"))
    (h5 : ¬ (arg = "-k" ∨ arg = "--kill")) (h6 : ¬ (arg = "-n" ∨ arg = "--numprocs"))
    (h7 : startsWith arg "--numprocs=" = false) :
    parseLoop stod stoul (arg :: rest) i opts secondsProvided
      = { opts := opts, showHelp := false, badArgs := true, stoppedAt := some i } := by
  rw [parseLoop_cons, if_neg h1, if_neg h2, h3, if_neg (by decide), if_neg h4, if_neg h5,
    if_neg h6, h7, if_neg (by decide)]

theorem startsWith_top_not_flag (arg : String) (h : startsWith arg "--top=" = true) :
    ¬ (arg = "-h" ∨ arg = "-?" ∨ arg = "--help") ∧ ¬ (arg = "-t" ∨ arg = "--top") := by
  constructor
  · rintro (rfl | rfl | rfl) <;> exact absurd h (by decide)
  · rintro (rfl | rfl) <;> exact absurd h (by decide)

theorem startsWith_numprocs_not_flag (arg : String) (h : startsWith arg "--numprocs=" = true) :
    ¬ (arg = "-h" ∨ arg = "-?" ∨ arg = "--help") ∧ ¬ (arg = "-t" ∨ arg = "--top") ∧
    ¬ (arg = "-s" ∨ arg = "--seconds") ∧ ¬ (arg = "-k" ∨ arg = "--kill") ∧
    ¬ (arg = "-n" ∨ arg = "--numprocs") := by
  refine ⟨?_, ?_, ?_, ?_, ?_⟩
  · rintro (rfl | rfl | rfl) <;> exact absurd h (by decide)
  all_goals rintro (rfl | rfl) <;> exact absurd h (by decide)

/-- A `--top=` argument whose lowercased value is none of the eight accepted
spellings: `badArgs` is set. -/
theorem parseLoop_invalid_top (stod : String → Option DoubleValue)
    (stoul : String → Option Nat)
    (arg : String) (rest : List String) (i : Nat) (opts : Options) (secondsProvided : Bool)
    (h : startsWith arg "--top=" = true)
    (hon : ¬ (lowerCase (substrFrom arg "--top=".length) = "1"
      ∨ lowerCase (substrFrom arg "--top=".length) = "true"
      ∨ lowerCase (substrFrom arg "--top=".length) = "yes"
      ∨ lowerCase (substrFrom arg "--top=".length) = "on"))
    (hoff : ¬ (lowerCase (substrFrom arg "--top=".length) = "0"
      ∨ lowerCase (substrFrom arg "--top=".length) = "false"
      ∨ lowerCase (substrFrom arg "--top=".length) = "no"
      ∨ lowerCase (substrFrom arg "--top=".length) = "off")) :
    parseLoop stod stoul (arg :: rest) i opts secondsProvided
      = { opts := opts, showHelp := false, badArgs := true, stoppedAt := some i } := by
  obtain ⟨h1, h2⟩ := startsWith_top_not_flag arg h
  rw [parseLoop_cons, if_neg h1, if_neg h2, h, if_pos rfl, if_neg hon, if_neg hoff]

/-- A `--numprocs=` argument whose value `parseCount` rejects: `badArgs` is set. -/
theorem parseLoop_invalid_numprocs (stod : String → Option DoubleValue)
    (stoul : String → Option Nat)
    (arg : String) (rest : List String) (i : Nat) (opts : Options) (secondsProvided : Bool)
    (h : startsWith arg "--numprocs=" = true)
    (hcount : parseCount stoul (substrFrom arg "--numprocs=".length) = none) :
    parseLoop stod stoul (arg :: rest) i opts secondsProvided
      = { opts := opts, showHelp := false, badArgs := true, stoppedAt := some i } := by
  obtain ⟨h1, h2, h4, h5, h6⟩ := startsWith_numprocs_not_flag arg h
  rw [parseLoop_cons, if_neg h1, if_neg h2, startsWith_numprocs_not_top arg h,
    if_neg (by decide), if_neg h4, if_neg h5, if_neg h6, h, if_pos rfl, hcount]

theorem value_flag_takesValue (arg : String)
    (h : (arg = "-s" ∨ arg = "--seconds") ∨ (arg = "-k" ∨ arg = "--kill")
      ∨ (arg = "-n" ∨ arg = "--numprocs")) : takesValue arg = true := by
  rcases h with (rfl | rfl) | (rfl | rfl) | (rfl | rfl) <;> decide

/-- A flag that takes a value and is the last argument: `badArgs` is set. -/
theorem parseLoop_missing_value (stod : String → Option DoubleValue)
    (stoul : String → Option Nat)
    (arg : String) (i : Nat) (opts : Options) (secondsProvided : Bool)
    (h : (arg = "-s" ∨ arg = "--seconds") ∨ (arg = "-k" ∨ arg = "--kill")
      ∨ (arg = "-n" ∨ arg = "--numprocs")) :
    parseLoop stod stoul [arg] i opts secondsProvided
      = { opts := opts, showHelp := false, badArgs := true, stoppedAt := some i } := by
  rw [parseLoop_view, value_flag_takesValue arg h, if_pos rfl]

/-- A flag that takes a value, followed by a value that its parsing function
rejects: `badArgs` is set, and the loop variable stands at the value. -/
theorem parseLoop_invalid_value (stod : String → Option DoubleValue)
    (stoul : String → Option Nat)
    (arg value : String) (rest : List String) (i : Nat) (opts : Options)
    (secondsProvided : Bool)
    (h : ((arg = "-s" ∨ arg = "--seconds") ∧ parseSeconds stod value = none)
      ∨ ((arg = "-k" ∨ arg = "--kill") ∧ parsePid stoul value = none)
      ∨ ((arg = "-n" ∨ arg = "--numprocs") ∧ parseCount stoul value = none)) :
    parseLoop stod stoul (arg :: value :: rest) i opts secondsProvided
      = { opts := opts, showHelp := false, badArgs := true, stoppedAt := some (i + 1) } := by
  have hstep : stepValue stod stoul arg value opts secondsProvided = none := by
    unfold stepValue
    rcases h with ⟨rfl | rfl, hv⟩ | ⟨rfl | rfl, hv⟩ | ⟨rfl | rfl, hv⟩ <;> simp [hv]
  have htv : takesValue arg = true := by
    apply value_flag_takesValue
    rcases h with ⟨h, _⟩ | ⟨h, _⟩ | ⟨h, _⟩
    · exact Or.inl h
    · exact Or.inr (Or.inl h)
    · exact Or.inr (Or.inr h)
  rw [parseLoop_view, htv, if_pos rfl]
  simp only [hstep]

/-- C17, first error wins, for every behaviour of `std::stod` and `std::stoul`.

Part 1, in terms of the argument index at which `parseOptions` returns early:
when it returns early at the same argument `argv[k]` for two argument lists
that agree up to and including that argument, it hands back the same outcome
for both (the same `Options`, `showHelp` and `badArgs`), exactly one of
`showHelp` and `badArgs` is set, and when arguments follow `argv[k]`, every
list that agrees up to and including `argv[k]` gives this outcome.

Part 2, in terms of the arguments themselves: let `pre` be arguments that
`parseOptions` accepts (neither flag set).  Then there are options `acc`, the
ones accumulated from `pre` (the same `intervalSeconds`, `killPid` and
`maxProcs` as `parseOptions` returns for `pre`, and `topMode` set only if it
is set there), such that whatever arguments `rest` follow:
(a) a help flag `-h`, `-?`, `--help` after `pre` gives `showHelp = true`,
`badArgs = false` and the options `acc`;
(b) an unknown flag after `pre` (an argument that is no help flag, not
`-t`/`--top`, `-s`/`--seconds`, `-k`/`--kill`, `-n`/`--numprocs`, and starts
with neither `--top=` nor `--numprocs=`) gives `badArgs = true`,
`showHelp = false` and the options `acc`;
(c) so does a `--top=` argument whose lowercased value is none of `1`, `true`,
`yes`, `on`, `0`, `false`, `no`, `off`;
(d) so does a `--numprocs=` argument whose value `parseCount` rejects;
(e) so does a value-taking flag that ends the list (missing value);
(f) so does a value-taking flag followed by a value that `parseSeconds`,
`parsePid` or `parseCount` respectively rejects.
In every case the outcome does not depend on `rest`: nothing after the first
rejected argument or help flag is applied. -/
theorem first_error_wins (stod : String → Option DoubleValue) (stoul : String → Option Nat) :
    (∀ (argvA argvB : List String) (k : Nat),
      (parseOptions stod stoul argvA).stoppedAt = some k →
      (parseOptions stod stoul argvB).stoppedAt = some k →
      argvB.take (k + 1) = argvA.take (k + 1) →
      parseOptions stod stoul argvB = parseOptions stod stoul argvA ∧
      (parseOptions stod stoul argvA).showHelp ≠ (parseOptions stod stoul argvA).badArgs ∧
      (k + 1 < argvA.length → ∀ argv : List String, argv.take (k + 1) = argvA.take (k + 1) →
        parseOptions stod stoul argv = parseOptions stod stoul argvA)) ∧
    (∀ (argv0 : String) (pre : List String),
      (parseOptions stod stoul (argv0 :: pre)).showHelp = false →
      (parseOptions stod stoul (argv0 :: pre)).badArgs = false →
      ∃ acc : Options,
        acc.intervalSeconds = (parseOptions stod stoul (argv0 :: pre)).opts.intervalSeconds ∧
        acc.killPid = (parseOptions stod stoul (argv0 :: pre)).opts.killPid ∧
        acc.maxProcs = (parseOptions stod stoul (argv0 :: pre)).opts.maxProcs ∧
        (acc.topMode = true → (parseOptions stod stoul (argv0 :: pre)).opts.topMode = true) ∧
        (∀ (arg : String) (rest : List String),
          (arg = "-h" ∨ arg = "-?" ∨ arg = "--help") →
          parseOptions stod stoul (argv0 :: (pre ++ arg :: rest))
            = { opts := acc, showHelp := true, badArgs := false
                stoppedAt := some (pre.length + 1) }) ∧
        (∀ (arg : String) (rest : List String),
          ¬ (arg = "-h" ∨ arg = "-?" ∨ arg = "--help") → ¬ (arg = "-t" ∨ arg = "--top") →
          startsWith arg "--top=" = false → ¬ (arg = "-s" ∨ arg = "--seconds") →
          ¬ (arg = "-k" ∨ arg = "--kill") → ¬ (arg = "-n" ∨ arg = "--numprocs") →
          startsWith arg "--numprocs=" = false →
          parseOptions stod stoul (argv0 :: (pre ++ arg :: rest))
            = { opts := acc, showHelp := false, badArgs := true
                stoppedAt := some (pre.length + 1) }) ∧
        (∀ (arg : String) (rest : List String),
          startsWith arg "--top=" = true →
          ¬ (lowerCase (substrFrom arg "--top=".length) = "1"
            ∨ lowerCase (substrFrom arg "--top=".length) = "true"
            ∨ lowerCase (substrFrom arg "--top=".length) = "yes"
            ∨ lowerCase (substrFrom arg "--top=".length) = "on") →
          ¬ (lowerCase (substrFrom arg "--top=".length) = "0"
            ∨ lowerCase (substrFrom arg "--top=".length) = "false"
            ∨ lowerCase (substrFrom arg "--top=".length) = "no"
            ∨ lowerCase (substrFrom arg "--top=".length) = "off") →
          parseOptions stod stoul (argv0 :: (pre ++ arg :: rest))
            = { opts := acc, showHelp := false, badArgs := true
                stoppedAt := some (pre.length + 1) }) ∧
        (∀ (arg : String) (rest : List String),
          startsWith arg "--numprocs=" = true →
          parseCount stoul (substrFrom arg "--numprocs=".length) = none →
          parseOptions stod stoul (argv0 :: (pre ++ arg :: rest))
            = { opts := acc, showHelp := false, badArgs := true
                stoppedAt := some (pre.length + 1) }) ∧
        (∀ arg : String,
          ((arg = "-s" ∨ arg = "--seconds") ∨ (arg = "-k" ∨ arg = "--kill")
            ∨ (arg = "-n" ∨ arg = "--numprocs")) →
          parseOptions stod stoul (argv0 :: (pre ++ [arg]))
            = { opts := acc, showHelp := false, badArgs := true
                stoppedAt := some (pre.length + 1) }) ∧
        (∀ (arg value : String) (rest : List String),
          (((arg = "-s" ∨ arg = "--seconds") ∧ parseSeconds stod value = none)
            ∨ ((arg = "-k" ∨ arg = "--kill") ∧ parsePid stoul value = none)
            ∨ ((arg = "-n" ∨ arg = "--numprocs") ∧ parseCount stoul value = none)) →
          parseOptions stod stoul (argv0 :: (pre ++ arg :: value :: rest))
            = { opts := acc, showHelp := false, badArgs := true
                stoppedAt := some (pre.length + 2) })) := by
  constructor
  · intro argvA argvB k hA hB hagree
    unfold parseOptions at hA hB ⊢
    have hk := parseLoop_stoppedAt_ge stod stoul _ _ _ _ k hA
    obtain ⟨j, rfl⟩ : ∃ j, k = 1 + j := ⟨k - 1, by omega⟩
    have htake : ∀ argv : List String, argv.take (1 + j + 1) = argvA.take (1 + j + 1) →
        (argv.drop 1).take (j + 1) = (argvA.drop 1).take (j + 1) := by
      intro argv h
      have h2 := congrArg (List.drop 1) h
      rw [List.drop_take, List.drop_take] at h2
      have e : 1 + j + 1 - 1 = j + 1 := by omega
      rw [e] at h2
      exact h2
    have hflags : (parseLoop stod stoul (argvA.drop 1) 1 {} false).showHelp
        ≠ (parseLoop stod stoul (argvA.drop 1) 1 {} false).badArgs := by
      rcases parseLoop_flags stod stoul (argvA.drop 1) 1 {} false with h | h
      · rw [h.1] at hA; cases hA
      · exact h.2
    have hmoreA : 1 + j + 1 < argvA.length → ∀ argv : List String,
        argv.take (1 + j + 1) = argvA.take (1 + j + 1) →
        parseLoop stod stoul (argv.drop 1) 1 {} false
          = parseLoop stod stoul (argvA.drop 1) 1 {} false := by
      intro hlen argv h
      exact parseLoop_agree stod stoul (argvA.drop 1) 1 {} false j hA
        (by rw [List.length_drop]; omega) (argv.drop 1) (htake argv h)
    refine ⟨?_, hflags, hmoreA⟩
    by_cases hlenA : 1 + j + 1 < argvA.length
    · exact hmoreA hlenA argvB hagree
    · by_cases hlenB : 1 + j + 1 < argvB.length
      · have htakeB : (argvA.drop 1).take (j + 1) = (argvB.drop 1).take (j + 1) :=
          (htake argvB hagree).symm
        exact (parseLoop_agree stod stoul (argvB.drop 1) 1 {} false j hB
          (by rw [List.length_drop]; omega) (argvA.drop 1) htakeB).symm
      · have hAB : argvB = argvA := by
          rw [List.take_of_length_le (by omega), List.take_of_length_le (by omega)] at hagree
          exact hagree
        rw [hAB]
  · intro argv0 pre hhelp hbad
    have hdrop : ∀ l : List String, parseOptions stod stoul (argv0 :: l)
        = parseLoop stod stoul l 1 {} false := fun l => rfl
    rw [hdrop] at hhelp hbad
    obtain ⟨acc, sp, hall⟩ := parseLoop_append stod stoul pre 1 {} false hhelp hbad
    have hpre : parseOptions stod stoul (argv0 :: pre)
        = { opts := if sp then { acc with topMode := true } else acc
            showHelp := false, badArgs := false, stoppedAt := none } := by
      rw [hdrop]
      have h := hall []
      rw [List.append_nil, parseLoop_nil] at h
      exact h
    have hidx : 1 + pre.length = pre.length + 1 := Nat.add_comm _ _
    have hidx2 : 1 + pre.length + 1 = pre.length + 2 := by omega
    refine ⟨acc, ?_, ?_, ?_, ?_, ?_, ?_, ?_, ?_, ?_, ?_⟩
    · rw [hpre]; cases sp <;> rfl
    · rw [hpre]; cases sp <;> rfl
    · rw [hpre]; cases sp <;> rfl
    · intro h; rw [hpre]; cases sp
      · exact h
      · rfl
    · intro arg rest h
      rw [hdrop, hall, parseLoop_help_flag stod stoul arg rest _ _ _ h, hidx]
    · intro arg rest h1 h2 h3 h4 h5 h6 h7
      rw [hdrop, hall, parseLoop_unknown_flag stod stoul arg rest _ _ _ h1 h2 h3 h4 h5 h6 h7,
        hidx]
    · intro arg rest h hon hoff
      rw [hdrop, hall, parseLoop_invalid_top stod stoul arg rest _ _ _ h hon hoff, hidx]
    · intro arg rest h hcount
      rw [hdrop, hall, parseLoop_invalid_numprocs stod stoul arg rest _ _ _ h hcount, hidx]
    · intro arg h
      rw [hdrop, hall, parseLoop_missing_value stod stoul arg _ _ _ h, hidx]
    · intro arg value rest h
      rw [hdrop, hall, parseLoop_invalid_value stod stoul arg value rest _ _ _ h, hidx2]

/-- C17 at concrete inputs.  `tm -t -n 0 -s 5` and `tm -t -n 0 --help` are both
rejected at `argv[3]` (a count of `0` is invalid); both give `badArgs` with
`topMode = true` from `-t`, and the `-s 5` that follows is not applied.  After
the accepted `tm -t`, the unknown flag `--bogus` sets `badArgs` and not
`showHelp`, whatever follows, and `--help` sets `showHelp` and not `badArgs`;
after the accepted `tm -k 42`, the argument `--top=maybe` sets `badArgs` and the
pid `42` is kept. -/
theorem first_error_wins_example :
    (parseOptions decimalStod decimalStoul ["tm", "-t", "-n", "0", "-s", "5"]).stoppedAt
      = some 3 ∧
    (parseOptions decimalStod decimalStoul ["tm", "-t", "-n", "0", "--help"]).stoppedAt
      = some 3 ∧
    parseOptions decimalStod decimalStoul ["tm", "-t", "-n", "0", "--help"]
      = parseOptions decimalStod decimalStoul ["tm", "-t", "-n", "0", "-s", "5"] ∧
    (parseOptions decimalStod decimalStoul ["tm", "-t", "-n", "0", "-s", "5"]).badArgs = true ∧
    (parseOptions decimalStod decimalStoul ["tm", "-t", "-n", "0", "-s", "5"]).showHelp = false ∧
    (parseOptions decimalStod decimalStoul ["tm", "-t", "-n", "0", "-s", "5"]).opts.topMode
      = true ∧
    (parseOptions decimalStod decimalStoul ["tm", "-t", "-n", "0", "-s", "5"]).opts.intervalSeconds
      = DoubleValue.finite 1 ∧
    (parseOptions decimalStod decimalStoul ["tm", "-t", "--bogus", "-s", "5"]).badArgs = true ∧
    (parseOptions decimalStod decimalStoul ["tm", "-t", "--bogus", "-s", "5"]).showHelp
      = false ∧
    (parseOptions decimalStod decimalStoul ["tm", "-t", "--help", "--bogus"]).showHelp = true ∧
    (parseOptions decimalStod decimalStoul ["tm", "-t", "--help", "--bogus"]).badArgs = false ∧
    (parseOptions decimalStod decimalStoul ["tm", "-k", "42", "--top=maybe", "-k", "7"]).badArgs
      = true ∧
    (parseOptions decimalStod decimalStoul
      ["tm", "-k", "42", "--top=maybe", "-k", "7"]).opts.killPid = some 42 := by
  have hA : (parseOptions decimalStod decimalStoul
      ["tm", "-t", "-n", "0", "-s", "5"]).stoppedAt = some 3 := by decide
  have hB : (parseOptions decimalStod decimalStoul
      ["tm", "-t", "-n", "0", "--help"]).stoppedAt = some 3 := by decide
  obtain ⟨acc, _, _, _, _, hhelp, hunknown, _⟩ :=
    (first_error_wins decimalStod decimalStoul).2 "tm" ["-t"] (by decide) (by decide)
  obtain ⟨acc2, _, hkill, _, _, _, _, htop, _⟩ :=
    (first_error_wins decimalStod decimalStoul).2 "tm" ["-k", "42"] (by decide) (by decide)
  have hu := hunknown "--bogus" ["-s", "5"] (by decide) (by decide) (by decide) (by decide)
    (by decide) (by decide) (by decide)
  have hh := hhelp "--help" ["--bogus"] (by decide)
  have ht := htop "--top=maybe" ["-k", "7"] (by decide) (by decide) (by decide)
  exact ⟨hA, hB,
    ((first_error_wins decimalStod decimalStoul).1 ["tm", "-t", "-n", "0", "-s", "5"]
      ["tm", "-t", "-n", "0", "--help"] 3 hA hB rfl).1,
    by decide, by decide, by decide, by decide!,
    congrArg ParseOutcome.badArgs hu, congrArg ParseOutcome.showHelp hu,
    congrArg ParseOutcome.showHelp hh, congrArg ParseOutcome.badArgs hh,
    congrArg ParseOutcome.badArgs ht,
    (congrArg (fun r => r.opts.killPid) ht).trans (hkill.trans (by decide))⟩

/-- C18, `printTable` prints up to `maxRows` entries: for every list of rows and
every `maxRows > 0` the process lines printed are exactly the first
`min maxRows n` rows of the list (`n` its length) in their given order, after
the two header lines, and every index read is within the bounds of the list. -/
theorem printTable_prints_first_rows (rows : List ProcessRow) (maxRows : Nat)
    (hpos : maxRows > 0) :
    (printTable rows maxRows).header = tableHeader ∧
    (printTable rows maxRows).processLines
      = (rows.take (min maxRows rows.length)).map some ∧
    (printTable rows maxRows).processLines.length = min maxRows rows.length ∧
    (∀ line ∈ (printTable rows maxRows).processLines, line ≠ none) := by
  have hlines := printTable_lines_limit rows maxRows hpos
  refine ⟨rfl, hlines, ?_, ?_⟩
  · rw [hlines, List.length_map, List.length_take]
    exact Nat.min_eq_left (Nat.min_le_right _ _)
  · intro line hline
    rw [hlines, List.mem_map] at hline
    obtain ⟨row, _, rfl⟩ := hline
    exact Option.some_ne_none row

/-- C18 at concrete inputs: of three rows a limit of `2` prints the first two,
and a limit of `5` prints all three. -/
theorem printTable_prints_first_rows_example :
    (printTable [{ pid := 9 }, { pid := 4 }, { pid := 7 }] 2).processLines
      = [some { pid := 9 }, some { pid := 4 }] ∧
    (printTable [{ pid := 9 }, { pid := 4 }, { pid := 7 }] 5).processLines
      = [some { pid := 9 }, some { pid := 4 }, some { pid := 7 }] :=
  ⟨(printTable_prints_first_rows [{ pid := 9 }, { pid := 4 }, { pid := 7 }] 2 (by decide)).2.1,
    (printTable_prints_first_rows [{ pid := 9 }, { pid := 4 }, { pid := 7 }] 5 (by decide)).2.1⟩

/-- C19, `formatUptime` decomposes exactly: for every millisecond count `ms`,
with `T = ms / 1000` rounded down, the output is `"<h>h <m>m <s>s"`, prefixed
by `"<d>d "` exactly when `d > 0`, where `d = T / 86400`, `h < 24`, `m < 60`,
`s < 60` and `d * 86400 + h * 3600 + m * 60 + s = T`. -/
theorem formatUptime_decomposes (ms : Nat) :
    ∃ d h m s : Nat,
      d = ms / 1000 / 86400 ∧ h < 24 ∧ m < 60 ∧ s < 60 ∧
      d * 86400 + h * 3600 + m * 60 + s = ms / 1000 ∧
      formatUptime ms
        = (if d > 0 then toString d ++ "d " else "")
          ++ (toString h ++ "h " ++ toString m ++ "m " ++ toString s ++ "s") := by
  refine ⟨ms / 1000 / 86400, ms / 1000 % 86400 / 3600, ms / 1000 % 86400 % 3600 / 60,
    ms / 1000 % 86400 % 3600 % 60, rfl, ?_, ?_, ?_, ?_, rfl⟩
  · omega
  · omega
  · omega
  · omega

/-- C19 at concrete inputs: `93784005` ms are one day, two hours, three minutes
and four seconds; `3723999` ms are one hour, two minutes and three seconds, with
no day prefix; the largest 64-bit count has `213503982334` days. -/
theorem formatUptime_examples :
    formatUptime 93784005 = "1d 2h 3m 4s" ∧
    formatUptime 3723999 = "1h 2m 3s" ∧
    formatUptime 0 = "0h 0m 0s" ∧
    formatUptime (2 ^ 64 - 1) = "213503982334d 14h 25m 51s" := by
  decide

/-- C20, enumeration failure is atomic: when the process snapshot cannot be
created, `sample` returns an empty list and leaves the sampler state unchanged
(previous system ticks, previous per-process mapping and last process count),
so the next `sample` call computes exactly what it would have computed had the
failed call not happened. -/
theorem failed_sample_atomic (self : ProcessSampler) (os : OsReading)
    (hfail : os.snapshot = none) :
    (sample self os).1 = [] ∧
    (sample self os).2 = self ∧
    (sample self os).2.prevSystemTime_ = self.prevSystemTime_ ∧
    (sample self os).2.prevProcTimes_ = self.prevProcTimes_ ∧
    (sample self os).2.lastProcessCount_ = self.lastProcessCount_ ∧
    (∀ next : OsReading, sample (sample self os).2 next = sample self next) := by
  rw [sample_failed self os hfail]
  exact ⟨rfl, rfl, rfl, rfl, rfl, fun _ => rfl⟩

/-- C20 at a concrete input: after a successful call on system ticks `1000`
with pid `7` at `100` ticks, a failed call reading system ticks `1050` changes
nothing, and the following call (system ticks `1100`, pid `7` at `150` ticks)
reports `50` percent, the delta against the baseline of the successful call. -/
theorem failed_sample_atomic_example :
    (failedReading 1050).snapshot = none ∧
    (sample (sample {} (readingOf 1000 [entryWithTicks 7 100])).2 (failedReading 1050)).1 = [] ∧
    (sample
        (sample (sample {} (readingOf 1000 [entryWithTicks 7 100])).2 (failedReading 1050)).2
        (readingOf 1100 [entryWithTicks 7 150])).1.map
      (fun row => (row.pid, row.cpuPercent)) = [(7, 50)] := by
  have h := failed_sample_atomic (sample {} (readingOf 1000 [entryWithTicks 7 100])).2
    (failedReading 1050) rfl
  refine ⟨rfl, h.1, ?_⟩
  rw [h.2.2.2.2.2]
  decide!

/-- C21, a recorded system-time reading of `0` counts as no baseline: when a
successful `sample` call read system ticks `0` (as `readSystemTime` returns
when `GetSystemTimes` fails), that call records `0` as the previous system
time, and the next `sample` call returns `cpuPercent = 0` for every row,
whatever its system ticks and whatever the previous and current ticks of the
processes are. -/
theorem zero_reading_is_no_baseline (self : ProcessSampler) (os next : OsReading)
    (entries : List ProcessEntry) (hsnap : os.snapshot = some entries)
    (hzero : readSystemTime os.systemTimes = 0) :
    readSystemTime none = 0 ∧
    (sample self os).2.prevSystemTime_ = 0 ∧
    (∀ row ∈ (sample (sample self os).2 next).1, row.cpuPercent = 0) ∧
    (∀ pid procTime : Nat,
      (computeCpu (sample self os).2 (readSystemTime next.systemTimes) pid procTime).cpu = 0) := by
  have hprev : (sample self os).2.prevSystemTime_ = 0 := by
    rw [sample_state self os entries hsnap]
    exact hzero
  refine ⟨rfl, hprev, ?_, ?_⟩
  · intro row hrow
    obtain ⟨_, _, e, _, rfl⟩ := (mem_sample_iff _ next row).1 hrow
    rw [buildRow_cpuPercent]
    exact computeCpu_no_baseline _ _ _ _ (Or.inl hprev)
  · intro pid procTime
    exact computeCpu_no_baseline _ _ _ _ (Or.inl hprev)

/-- C21 at a concrete input: a first call for which `GetSystemTimes` fails
sees pid `7` at `100` ticks; the next call reads system ticks `1100 > 0` and
pid `7` at `150 ≥ 100` ticks, and still reports `cpuPercent = 0` for it. -/
theorem zero_reading_is_no_baseline_example :
    readSystemTime (readingWithoutSystemTimes [entryWithTicks 7 100]).systemTimes = 0 ∧
    (sample {} (readingWithoutSystemTimes [entryWithTicks 7 100])).2.prevProcTimes_ 7
      = some 100 ∧
    0 < readSystemTime (readingOf 1100 [entryWithTicks 7 150]).systemTimes ∧
    100 ≤ procTimeOf (entryWithTicks 7 150).query ∧
    (sample (sample {} (readingWithoutSystemTimes [entryWithTicks 7 100])).2
        (readingOf 1100 [entryWithTicks 7 150])).1.map
      (fun row => (row.pid, row.cpuPercent)) = [(7, 0)] := by
  have h := zero_reading_is_no_baseline {} (readingWithoutSystemTimes [entryWithTicks 7 100])
    (readingOf 1100 [entryWithTicks 7 150]) [entryWithTicks 7 100] rfl rfl
  have hS : readSystemTime (readingOf 1100 [entryWithTicks 7 150]).systemTimes = 1100 :=
    readSystemTime_readingOf 1100 _ (by norm_num)
  have hp : procTimeOf (entryWithTicks 7 150).query = 150 :=
    procTimeOf_entryWithTicks 7 150 (by norm_num)
  have hrows : (sample (sample {} (readingWithoutSystemTimes [entryWithTicks 7 100])).2
      (readingOf 1100 [entryWithTicks 7 150])).1
      = [buildRow (sample {} (readingWithoutSystemTimes [entryWithTicks 7 100])).2 1100
          (entryWithTicks 7 150)] := by
    rw [sample_rows _ _ [entryWithTicks 7 150] rfl, hS]
    rfl
  have hcpu := h.2.2.1 _ (by rw [hrows]; exact List.mem_singleton.2 rfl)
  refine ⟨rfl, by decide, by rw [hS]; decide, by rw [hp]; decide, ?_⟩
  rw [hrows, List.map_singleton, hcpu]
  rfl

end TaskManager
